import Mathlib

set_option maxRecDepth 8000

deriving instance DecidableEq for Except

/-!
# Verification of the BMC-Installer flash-engine core

This development shallowly embeds the core of the BMC installer
(`src/ubi/headers.rs`, `src/ubi/scan.rs`, `src/ubi/format.rs`,
`src/ubi/ubinize.rs`, `src/format/raw.rs`, `src/nand/mod.rs`,
`src/image.rs`) and proves or refutes the frozen claims about it.

Machine bytes are modelled as `Nat` values (with the convention that a
well-formed byte is `< 256`), byte buffers as `List Nat`, and machine
integers as `Nat` with explicit `% 2 ^ w` where wrap-around matters.
Fallible operations return `Option`/`Except`.
-/

/-! ## Byte-level helpers: big-endian fields and CRC-32 -/

/-- Big-endian serialization of a value into `w` bytes (the value is taken
modulo `2 ^ (8 * w)`, as Rust field types do by construction). -/
def beBytes : Nat → Nat → List Nat
  | 0, _ => []
  | w + 1, v => (v / 2 ^ (8 * w)) % 256 :: beBytes w v

/-- Big-endian deserialization of a byte list into a value. -/
def beVal : List Nat → Nat
  | [] => 0
  | b :: rest => (b % 256) * 2 ^ (8 * rest.length) + beVal rest

theorem length_beBytes (w v : Nat) : (beBytes w v).length = w := by
  induction w generalizing v with
  | zero => rfl
  | succ w ih => simp [beBytes, ih]

theorem beBytes_lt (w v : Nat) : ∀ b ∈ beBytes w v, b < 256 := by
  induction w generalizing v with
  | zero => simp [beBytes]
  | succ w ih =>
    intro b hb
    simp only [beBytes, List.mem_cons] at hb
    rcases hb with h | h
    · omega
    · exact ih v b h

theorem beVal_lt (l : List Nat) : beVal l < 2 ^ (8 * l.length) := by
  induction l with
  | nil => simp [beVal]
  | cons b t ih =>
    simp only [beVal, List.length_cons]
    have hb : b % 256 ≤ 255 := by omega
    have h1 : (b % 256) * 2 ^ (8 * t.length) ≤ 255 * 2 ^ (8 * t.length) :=
      Nat.mul_le_mul_right _ hb
    have h2 : 2 ^ (8 * (t.length + 1)) = 256 * 2 ^ (8 * t.length) := by
      rw [Nat.mul_add, Nat.pow_add]
      ring
    omega

theorem beVal_beBytes (w v : Nat) : beVal (beBytes w v) = v % 2 ^ (8 * w) := by
  induction w generalizing v with
  | zero => simp [beBytes, beVal]; omega
  | succ w ih =>
    simp only [beBytes, beVal, length_beBytes, ih]
    have hmod : (v / 2 ^ (8 * w)) % 256 % 256 = (v / 2 ^ (8 * w)) % 256 :=
      Nat.mod_mod_of_dvd _ dvd_rfl
    rw [hmod]
    have hsplit : v % (2 ^ (8 * w) * 256) =
        v % 2 ^ (8 * w) + 2 ^ (8 * w) * (v / 2 ^ (8 * w) % 256) := Nat.mod_mul
    have hpow : 2 ^ (8 * (w + 1)) = 2 ^ (8 * w) * 256 := by
      rw [Nat.mul_add, Nat.pow_add]
    rw [hpow, hsplit]
    ring

theorem beBytes_mod (w v : Nat) : beBytes w (v % 2 ^ (8 * w)) = beBytes w v := by
  induction w generalizing v with
  | zero => rfl
  | succ w ih =>
    have hpow : 2 ^ (8 * (w + 1)) = 2 ^ (8 * w) * 256 := by
      rw [Nat.mul_add, Nat.pow_add]
    have hdvd : (2 : Nat) ^ (8 * w) ∣ 2 ^ (8 * (w + 1)) := pow_dvd_pow 2 (by omega)
    simp only [beBytes, List.cons.injEq]
    constructor
    · rw [hpow, Nat.mod_mul_right_div_self]
      exact Nat.mod_mod_of_dvd _ dvd_rfl
    · rw [← ih v, ← ih (v % 2 ^ (8 * (w + 1)))]
      congr 1
      exact Nat.mod_mod_of_dvd v hdvd

theorem beBytes_beVal (l : List Nat) : (∀ b ∈ l, b < 256) →
    beBytes l.length (beVal l) = l := by
  induction l with
  | nil => intro _; rfl
  | cons b t ih =>
    intro h
    have hb : b < 256 := h b (by simp)
    have hbv : beVal t < 2 ^ (8 * t.length) := beVal_lt t
    have hP : (0 : Nat) < 2 ^ (8 * t.length) := by positivity
    have hmod : ((b % 256) * 2 ^ (8 * t.length) + beVal t) % 2 ^ (8 * t.length) = beVal t := by
      rw [Nat.add_comm, Nat.add_mul_mod_self_right, Nat.mod_eq_of_lt hbv]
    simp only [List.length_cons, beBytes, beVal, List.cons.injEq]
    constructor
    · rw [Nat.mul_comm, Nat.mul_add_div hP, Nat.div_eq_of_lt hbv]
      omega
    · rw [← beBytes_mod, hmod]
      exact ih (fun x hx => h x (List.mem_cons_of_mem _ hx))

/-- One byte step of a reflected CRC-32 with the given (reflected) polynomial. -/
def crc32_step (poly : Nat) (crc : Nat) (byte : Nat) : Nat :=
  let c := crc ^^^ (byte % 256)
  (List.range 8).foldl (fun c _ => if c % 2 = 1 then (c / 2) ^^^ poly else c / 2) c

/-- Reflected CRC-32 with initial value `0xFFFFFFFF` and no final xor. -/
def crc32_run (poly : Nat) (bytes : List Nat) : Nat :=
  bytes.foldl (crc32_step poly) 0xFFFFFFFF

/-- `UBI_CRC`: the JAMCRC variant used by all UBI headers (polynomial
`0x04C11DB7` reflected to `0xEDB88320`, init `0xFFFFFFFF`, no final xor);
`src/ubi/headers.rs` builds it as `Crc::<u32>::new(&CRC_32_JAMCRC)`. -/
def jamcrc (bytes : List Nat) : Nat := crc32_run 0xEDB88320 bytes

/-- `EROFS_CRC` from `src/image.rs`: `CRC_32_ISCSI` (Castagnoli, reflected
polynomial `0x82F63B78`, init `0xFFFFFFFF`) with `xorout` overridden to 0. -/
def crc32c_erofs (bytes : List Nat) : Nat := crc32_run 0x82F63B78 bytes

theorem crc32_step_lt (poly crc byte : Nat) (hp : poly < 2 ^ 32) (hc : crc < 2 ^ 32) :
    crc32_step poly crc byte < 2 ^ 32 := by
  have hxor : crc ^^^ (byte % 256) < 2 ^ 32 :=
    Nat.xor_lt_two_pow hc (lt_of_lt_of_le (Nat.mod_lt _ (by norm_num)) (by norm_num))
  have hstep : ∀ c, c < 2 ^ 32 →
      (if c % 2 = 1 then (c / 2) ^^^ poly else c / 2) < 2 ^ 32 := by
    intro c hclt
    by_cases h2 : c % 2 = 1
    · simp only [h2, if_pos rfl]
      exact Nat.xor_lt_two_pow (by omega) hp
    · simp only [if_neg h2]
      omega
  have hfold : ∀ (l : List Nat) (c : Nat), c < 2 ^ 32 →
      l.foldl (fun c _ => if c % 2 = 1 then (c / 2) ^^^ poly else c / 2) c < 2 ^ 32 := by
    intro l
    induction l with
    | nil =>
      intro c hclt
      simpa using hclt
    | cons x xs ih =>
      intro c hclt
      simp only [List.foldl_cons]
      exact ih _ (hstep c hclt)
  exact hfold _ _ hxor

theorem crc32_run_lt (poly : Nat) (bytes : List Nat) (hp : poly < 2 ^ 32) :
    crc32_run poly bytes < 2 ^ 32 := by
  have hfold : ∀ (l : List Nat) (c : Nat), c < 2 ^ 32 →
      l.foldl (crc32_step poly) c < 2 ^ 32 := by
    intro l
    induction l with
    | nil =>
      intro c hclt
      simpa using hclt
    | cons x xs ih =>
      intro c hclt
      simp only [List.foldl_cons]
      exact ih _ (crc32_step_lt poly c x hp hclt)
  exact hfold bytes _ (by norm_num)

theorem jamcrc_lt (bytes : List Nat) : jamcrc bytes < 2 ^ 32 :=
  crc32_run_lt _ bytes (by norm_num)

/-- Is a continuation byte (`0x80..0xBF`) — helper for UTF-8 validation. -/
def utf8Cont (b : Nat) : Bool := 0x80 ≤ b && b ≤ 0xBF

/-- UTF-8 validity of a byte sequence; models the check done by Rust
`std::str::from_utf8` when `VolTableRecord::try_from` recovers the volume
name (a Rust `String` is valid UTF-8 by construction). -/
def isValidUtf8 : List Nat → Bool
  | [] => true
  | b :: rest =>
    if b ≤ 0x7F then isValidUtf8 rest
    else if 0xC2 ≤ b && b ≤ 0xDF then
      match rest with
      | c1 :: r => utf8Cont c1 && isValidUtf8 r
      | [] => false
    else if b = 0xE0 then
      match rest with
      | c1 :: c2 :: r => (0xA0 ≤ c1 && c1 ≤ 0xBF) && utf8Cont c2 && isValidUtf8 r
      | _ => false
    else if (0xE1 ≤ b && b ≤ 0xEC) || (0xEE ≤ b && b ≤ 0xEF) then
      match rest with
      | c1 :: c2 :: r => utf8Cont c1 && utf8Cont c2 && isValidUtf8 r
      | _ => false
    else if b = 0xED then
      match rest with
      | c1 :: c2 :: r => (0x80 ≤ c1 && c1 ≤ 0x9F) && utf8Cont c2 && isValidUtf8 r
      | _ => false
    else if b = 0xF0 then
      match rest with
      | c1 :: c2 :: c3 :: r =>
        (0x90 ≤ c1 && c1 ≤ 0xBF) && utf8Cont c2 && utf8Cont c3 && isValidUtf8 r
      | _ => false
    else if 0xF1 ≤ b && b ≤ 0xF3 then
      match rest with
      | c1 :: c2 :: c3 :: r => utf8Cont c1 && utf8Cont c2 && utf8Cont c3 && isValidUtf8 r
      | _ => false
    else if b = 0xF4 then
      match rest with
      | c1 :: c2 :: c3 :: r =>
        (0x80 ≤ c1 && c1 ≤ 0x8F) && utf8Cont c2 && utf8Cont c3 && isValidUtf8 r
      | _ => false
    else false

/-! ## Header codec (`src/ubi/headers.rs`)

The byte layouts come from the `income` crate (`EcHdr`, `VidHdr`,
`VtblRecord` with `deku` big-endian serialization), which is a dependency,
not part of this repository.  The layouts below are therefore modelled from
the spec (§4.2, §6: magic + version framing, natural big-endian field
offsets per the UBI on-flash format, 64-byte EC/VID headers, 172-byte
volume-table records, JAMCRC over every byte before the trailing CRC
field). -/

def UBI_EC_HDR_MAGIC : List Nat := [0x55, 0x42, 0x49, 0x23]

def UBI_VID_HDR_MAGIC : List Nat := [0x55, 0x42, 0x49, 0x21]

def UBI_VERSION : Nat := 1

/-- The fields of a UBI EC (erase-count) header that the installer uses
(struct `Ec` in `src/ubi/headers.rs`). -/
structure Ec where
  ec : Nat
  vid_hdr_offset : Nat
  data_offset : Nat
  image_seq : Nat
deriving DecidableEq

instance : Inhabited Ec := ⟨⟨0, 0, 0, 0⟩⟩

/-- `Ec::ec` from `src/ubi/headers.rs`: replace the erase counter. -/
def Ec.ecSet (e : Ec) (n : Nat) : Ec := { e with ec := n }

/-- `Ec::inc_ec` from `src/ubi/headers.rs`: increment the erase counter. -/
def Ec.inc_ec (e : Ec) : Ec := { e with ec := e.ec + 1 }

/-- Modelled from the spec: the first 60 bytes of the serialized `EcHdr`
(the `income` crate layout: magic, version, 3 padding bytes, `ec` u64 BE,
`vid_hdr_offset`, `data_offset`, `image_seq` u32 BE, 32 padding bytes). -/
def Ec.bodyBytes (e : Ec) : List Nat :=
  UBI_EC_HDR_MAGIC ++ [UBI_VERSION] ++ [0, 0, 0] ++ beBytes 8 e.ec ++
    beBytes 4 e.vid_hdr_offset ++ beBytes 4 e.data_offset ++ beBytes 4 e.image_seq ++
    List.replicate 32 0

/-- The full 64-byte serialized EC header: body plus JAMCRC over the body
(`ComputeCrc::fix_crc` in `src/ubi/headers.rs`). -/
def Ec.encode64 (e : Ec) : List Nat :=
  e.bodyBytes ++ beBytes 4 (jamcrc e.bodyBytes)

/-- `Ec::encode` writes the 64 header bytes at the start of a zeroed page
buffer of `pageSize` bytes, failing when the buffer is too small. -/
def Ec.encodePage (e : Ec) (pageSize : Nat) : Option (List Nat) :=
  if pageSize < 64 then none
  else some (e.encode64 ++ List.replicate (pageSize - 64) 0)

/-- `Ec::decode`: parse the first 64 bytes, checking magic, version and
JAMCRC (`ParseHeader::parse` in `src/ubi/headers.rs`), then keep the four
fields of interest. -/
def Ec.decode (bytes : List Nat) : Option Ec :=
  if bytes.length < 64 then none
  else
    let b := bytes.take 64
    if b.take 4 = UBI_EC_HDR_MAGIC ∧ (b.drop 4).headD 0 = UBI_VERSION ∧
        beVal (b.drop 60) = jamcrc (b.take 60) then
      some { ec := beVal ((b.drop 8).take 8), vid_hdr_offset := beVal ((b.drop 16).take 4),
             data_offset := beVal ((b.drop 20).take 4), image_seq := beVal ((b.drop 24).take 4) }
    else none

theorem Ec.length_bodyBytes (e : Ec) : e.bodyBytes.length = 60 := by
  simp [Ec.bodyBytes, UBI_EC_HDR_MAGIC, length_beBytes]

theorem Ec.length_encode64 (e : Ec) : e.encode64.length = 64 := by
  simp [Ec.encode64, Ec.length_bodyBytes, length_beBytes]

theorem Ec.encode64_eq (e : Ec) : e.encode64 =
    0x55 :: 0x42 :: 0x49 :: 0x23 :: UBI_VERSION :: 0 :: 0 :: 0 ::
      (beBytes 8 e.ec ++ (beBytes 4 e.vid_hdr_offset ++ (beBytes 4 e.data_offset ++
        (beBytes 4 e.image_seq ++ (List.replicate 32 0 ++ beBytes 4 (jamcrc e.bodyBytes)))))) := by
  simp [Ec.encode64, Ec.bodyBytes, UBI_EC_HDR_MAGIC, List.append_assoc]

/-- A "valid field assignment" for an EC header: every field fits its
on-flash machine-integer width (as every Rust `Ec` value does). -/
def validEc (e : Ec) : Prop :=
  e.ec < 2 ^ 64 ∧ e.vid_hdr_offset < 2 ^ 32 ∧ e.data_offset < 2 ^ 32 ∧ e.image_seq < 2 ^ 32

instance (e : Ec) : Decidable (validEc e) := by
  unfold validEc
  infer_instance

theorem Ec.decode_encode64 (e : Ec) : Ec.decode (Ec.encode64 e) =
    some { ec := e.ec % 2 ^ 64, vid_hdr_offset := e.vid_hdr_offset % 2 ^ 32,
           data_offset := e.data_offset % 2 ^ 32, image_seq := e.image_seq % 2 ^ 32 } := by
  have hlen : e.encode64.length = 64 := Ec.length_encode64 e
  have htake : e.encode64.take 64 = e.encode64 := List.take_of_length_le (le_of_eq hlen)
  have htake60 : e.encode64.take 60 = e.bodyBytes := by
    simp only [Ec.encode64]
    exact List.take_left' (Ec.length_bodyBytes e)
  have hdrop60 : e.encode64.drop 60 = beBytes 4 (jamcrc e.bodyBytes) := by
    simp only [Ec.encode64]
    exact List.drop_left' (Ec.length_bodyBytes e)
  have hmagic : e.encode64.take 4 = UBI_EC_HDR_MAGIC := by
    rw [Ec.encode64_eq]
    rfl
  have hver : (e.encode64.drop 4).headD 0 = UBI_VERSION := by
    rw [Ec.encode64_eq]
    rfl
  have hcrc : beVal (beBytes 4 (jamcrc e.bodyBytes)) = jamcrc e.bodyBytes := by
    rw [beVal_beBytes]
    exact Nat.mod_eq_of_lt (lt_of_lt_of_le (jamcrc_lt _) (by norm_num))
  have hdrop8 : e.encode64.drop 8 =
      beBytes 8 e.ec ++ (beBytes 4 e.vid_hdr_offset ++ (beBytes 4 e.data_offset ++
        (beBytes 4 e.image_seq ++ (List.replicate 32 0 ++ beBytes 4 (jamcrc e.bodyBytes))))) := by
    rw [Ec.encode64_eq]
    rfl
  have hdrop16 : e.encode64.drop 16 =
      beBytes 4 e.vid_hdr_offset ++ (beBytes 4 e.data_offset ++
        (beBytes 4 e.image_seq ++ (List.replicate 32 0 ++ beBytes 4 (jamcrc e.bodyBytes)))) := by
    have h1 : e.encode64.drop 16 = (e.encode64.drop 8).drop 8 := by
      rw [List.drop_drop]
    rw [h1, hdrop8]
    exact List.drop_left' (length_beBytes 8 e.ec)
  have hdrop20 : e.encode64.drop 20 =
      beBytes 4 e.data_offset ++
        (beBytes 4 e.image_seq ++ (List.replicate 32 0 ++ beBytes 4 (jamcrc e.bodyBytes))) := by
    have h1 : e.encode64.drop 20 = (e.encode64.drop 16).drop 4 := by
      rw [List.drop_drop]
    rw [h1, hdrop16]
    exact List.drop_left' (length_beBytes 4 e.vid_hdr_offset)
  have hdrop24 : e.encode64.drop 24 =
      beBytes 4 e.image_seq ++ (List.replicate 32 0 ++ beBytes 4 (jamcrc e.bodyBytes)) := by
    have h1 : e.encode64.drop 24 = (e.encode64.drop 20).drop 4 := by
      rw [List.drop_drop]
    rw [h1, hdrop20]
    exact List.drop_left' (length_beBytes 4 e.data_offset)
  have hec : (e.encode64.drop 8).take 8 = beBytes 8 e.ec := by
    rw [hdrop8]
    exact List.take_left' (length_beBytes 8 e.ec)
  have hvho : (e.encode64.drop 16).take 4 = beBytes 4 e.vid_hdr_offset := by
    rw [hdrop16]
    exact List.take_left' (length_beBytes 4 e.vid_hdr_offset)
  have hdo : (e.encode64.drop 20).take 4 = beBytes 4 e.data_offset := by
    rw [hdrop20]
    exact List.take_left' (length_beBytes 4 e.data_offset)
  have hiseq : (e.encode64.drop 24).take 4 = beBytes 4 e.image_seq := by
    rw [hdrop24]
    exact List.take_left' (length_beBytes 4 e.image_seq)
  rw [Ec.decode]
  rw [if_neg (by omega)]
  simp only [htake, hmagic, hver, hdrop60, htake60, hcrc, hec, hvho, hdo, hiseq]
  rw [if_pos ⟨trivial, trivial, trivial⟩]
  simp only [beVal_beBytes]

theorem Ec.encode64_mod (e : Ec) :
    Ec.encode64 ⟨e.ec % 2 ^ 64, e.vid_hdr_offset % 2 ^ 32, e.data_offset % 2 ^ 32,
      e.image_seq % 2 ^ 32⟩ = Ec.encode64 e := by
  have h8 : (2 : Nat) ^ 64 = 2 ^ (8 * 8) := by norm_num
  have h4 : (2 : Nat) ^ 32 = 2 ^ (8 * 4) := by norm_num
  simp only [Ec.encode64, Ec.bodyBytes, h8, h4, beBytes_mod]

/-- UBI volume types (`VolType` in `src/ubi/headers.rs`). -/
inductive VolType
  | Dynamic
  | Static
deriving DecidableEq

instance : Inhabited VolType := ⟨VolType.Dynamic⟩

/-- `From<VolType> for u8`. -/
def VolType.toByte : VolType → Nat
  | .Dynamic => 1
  | .Static => 2

/-- `TryFrom<u8> for VolType`. -/
def volTypeOfByte (b : Nat) : Option VolType :=
  if b = 1 then some .Dynamic else if b = 2 then some .Static else none

/-- The fields of a UBI VID header that the installer uses
(struct `Vid` in `src/ubi/headers.rs`). -/
structure Vid where
  vol_type : VolType
  copy_flag : Bool
  compat : Nat
  vol_id : Nat
  lnum : Nat
  data_size : Nat
  used_ebs : Nat
  data_pad : Nat
  data_crc : Nat
  sqnum : Nat
deriving DecidableEq

instance : Inhabited Vid := ⟨⟨.Dynamic, false, 0, 0, 0, 0, 0, 0, 0, 0⟩⟩

/-- `Vid::sqnum` from `src/ubi/headers.rs`: replace the sequence number. -/
def Vid.sqnumSet (v : Vid) (n : Nat) : Vid := { v with sqnum := n }

/-- Modelled from the spec: the first 60 bytes of the serialized `VidHdr`
(the `income` crate layout: magic, version, `vol_type`, `copy_flag`,
`compat` bytes, `vol_id`, `lnum` u32 BE, 4 padding bytes, `data_size`,
`used_ebs`, `data_pad`, `data_crc` u32 BE, 4 padding bytes, `sqnum` u64 BE,
12 padding bytes). -/
def Vid.bodyBytes (v : Vid) : List Nat :=
  UBI_VID_HDR_MAGIC ++ [UBI_VERSION] ++ [v.vol_type.toByte] ++
    [if v.copy_flag then 1 else 0] ++ [v.compat % 256] ++ beBytes 4 v.vol_id ++
    beBytes 4 v.lnum ++ List.replicate 4 0 ++ beBytes 4 v.data_size ++ beBytes 4 v.used_ebs ++
    beBytes 4 v.data_pad ++ beBytes 4 v.data_crc ++ List.replicate 4 0 ++ beBytes 8 v.sqnum ++
    List.replicate 12 0

/-- The full 64-byte serialized VID header: body plus JAMCRC over the body. -/
def Vid.encode64 (v : Vid) : List Nat :=
  v.bodyBytes ++ beBytes 4 (jamcrc v.bodyBytes)

/-- `Vid::encode` writes the 64 header bytes at the start of a zeroed buffer
of `size` bytes, failing when the buffer is too small. -/
def Vid.encodePage (v : Vid) (size : Nat) : Option (List Nat) :=
  if size < 64 then none
  else some (v.encode64 ++ List.replicate (size - 64) 0)

/-- `Vid::decode`: parse the first 64 bytes, checking magic, version and
JAMCRC, then convert (`TryFrom<VidHdr> for Vid`), which fails on an
invalid `vol_type` byte. -/
def Vid.decode (bytes : List Nat) : Option Vid :=
  if bytes.length < 64 then none
  else
    let b := bytes.take 64
    if b.take 4 = UBI_VID_HDR_MAGIC ∧ (b.drop 4).headD 0 = UBI_VERSION ∧
        beVal (b.drop 60) = jamcrc (b.take 60) then
      match volTypeOfByte ((b.drop 5).headD 0) with
      | none => none
      | some vt =>
        some { vol_type := vt, copy_flag := (b.drop 6).headD 0 != 0,
               compat := (b.drop 7).headD 0, vol_id := beVal ((b.drop 8).take 4),
               lnum := beVal ((b.drop 12).take 4), data_size := beVal ((b.drop 20).take 4),
               used_ebs := beVal ((b.drop 24).take 4), data_pad := beVal ((b.drop 28).take 4),
               data_crc := beVal ((b.drop 32).take 4), sqnum := beVal ((b.drop 40).take 8) }
    else none

theorem Vid.length_bodyBytes_vid (v : Vid) : v.bodyBytes.length = 60 := by
  simp [Vid.bodyBytes, UBI_VID_HDR_MAGIC, length_beBytes]

theorem Vid.length_encode64_vid (v : Vid) : v.encode64.length = 64 := by
  simp [Vid.encode64, Vid.length_bodyBytes_vid, length_beBytes]

theorem Vid.encode64_eq_vid (v : Vid) : v.encode64 =
    0x55 :: 0x42 :: 0x49 :: 0x21 :: UBI_VERSION :: v.vol_type.toByte ::
      (if v.copy_flag then 1 else 0) :: v.compat % 256 ::
      (beBytes 4 v.vol_id ++ (beBytes 4 v.lnum ++ (List.replicate 4 0 ++
        (beBytes 4 v.data_size ++ (beBytes 4 v.used_ebs ++ (beBytes 4 v.data_pad ++
          (beBytes 4 v.data_crc ++ (List.replicate 4 0 ++ (beBytes 8 v.sqnum ++
            (List.replicate 12 0 ++ beBytes 4 (jamcrc v.bodyBytes))))))))))) := by
  simp [Vid.encode64, Vid.bodyBytes, UBI_VID_HDR_MAGIC, List.append_assoc]

/-- A "valid field assignment" for a VID header: every numeric field fits
its on-flash machine-integer width (as every Rust `Vid` value does). -/
def validVid (v : Vid) : Prop :=
  v.compat < 2 ^ 8 ∧ v.vol_id < 2 ^ 32 ∧ v.lnum < 2 ^ 32 ∧ v.data_size < 2 ^ 32 ∧
    v.used_ebs < 2 ^ 32 ∧ v.data_pad < 2 ^ 32 ∧ v.data_crc < 2 ^ 32 ∧ v.sqnum < 2 ^ 64

instance (v : Vid) : Decidable (validVid v) := by
  unfold validVid
  infer_instance

theorem volTypeOfByte_toByte (vt : VolType) : volTypeOfByte vt.toByte = some vt := by
  cases vt <;> rfl

theorem copyFlagByte_ne (c : Bool) : ((if c then 1 else 0 : Nat) != 0) = c := by
  cases c <;> rfl

theorem Vid.decode_encode64_vid (v : Vid) : Vid.decode (Vid.encode64 v) =
    some { vol_type := v.vol_type, copy_flag := v.copy_flag, compat := v.compat % 2 ^ 8,
           vol_id := v.vol_id % 2 ^ 32, lnum := v.lnum % 2 ^ 32,
           data_size := v.data_size % 2 ^ 32, used_ebs := v.used_ebs % 2 ^ 32,
           data_pad := v.data_pad % 2 ^ 32, data_crc := v.data_crc % 2 ^ 32,
           sqnum := v.sqnum % 2 ^ 64 } := by
  have hlen : v.encode64.length = 64 := Vid.length_encode64_vid v
  have htake : v.encode64.take 64 = v.encode64 := List.take_of_length_le (le_of_eq hlen)
  have htake60 : v.encode64.take 60 = v.bodyBytes := by
    simp only [Vid.encode64]
    exact List.take_left' (Vid.length_bodyBytes_vid v)
  have hdrop60 : v.encode64.drop 60 = beBytes 4 (jamcrc v.bodyBytes) := by
    simp only [Vid.encode64]
    exact List.drop_left' (Vid.length_bodyBytes_vid v)
  have hmagic : v.encode64.take 4 = UBI_VID_HDR_MAGIC := by
    rw [Vid.encode64_eq_vid]
    rfl
  have hver : (v.encode64.drop 4).headD 0 = UBI_VERSION := by
    rw [Vid.encode64_eq_vid]
    rfl
  have hvt : (v.encode64.drop 5).headD 0 = v.vol_type.toByte := by
    rw [Vid.encode64_eq_vid]
    rfl
  have hcf : (v.encode64.drop 6).headD 0 = (if v.copy_flag then 1 else 0) := by
    rw [Vid.encode64_eq_vid]
    rfl
  have hcompat : (v.encode64.drop 7).headD 0 = v.compat % 256 := by
    rw [Vid.encode64_eq_vid]
    rfl
  have hcrc : beVal (beBytes 4 (jamcrc v.bodyBytes)) = jamcrc v.bodyBytes := by
    rw [beVal_beBytes]
    exact Nat.mod_eq_of_lt (lt_of_lt_of_le (jamcrc_lt _) (by norm_num))
  have hdrop8 : v.encode64.drop 8 =
      beBytes 4 v.vol_id ++ (beBytes 4 v.lnum ++ (List.replicate 4 0 ++
        (beBytes 4 v.data_size ++ (beBytes 4 v.used_ebs ++ (beBytes 4 v.data_pad ++
          (beBytes 4 v.data_crc ++ (List.replicate 4 0 ++ (beBytes 8 v.sqnum ++
            (List.replicate 12 0 ++ beBytes 4 (jamcrc v.bodyBytes)))))))))) := by
    rw [Vid.encode64_eq_vid]
    rfl
  have hdrop12 : v.encode64.drop 12 =
      beBytes 4 v.lnum ++ (List.replicate 4 0 ++
        (beBytes 4 v.data_size ++ (beBytes 4 v.used_ebs ++ (beBytes 4 v.data_pad ++
          (beBytes 4 v.data_crc ++ (List.replicate 4 0 ++ (beBytes 8 v.sqnum ++
            (List.replicate 12 0 ++ beBytes 4 (jamcrc v.bodyBytes))))))))) := by
    have h1 : v.encode64.drop 12 = (v.encode64.drop 8).drop 4 := by
      rw [List.drop_drop]
    rw [h1, hdrop8]
    exact List.drop_left' (length_beBytes 4 v.vol_id)
  have hdrop16 : v.encode64.drop 16 =
      List.replicate 4 0 ++
        (beBytes 4 v.data_size ++ (beBytes 4 v.used_ebs ++ (beBytes 4 v.data_pad ++
          (beBytes 4 v.data_crc ++ (List.replicate 4 0 ++ (beBytes 8 v.sqnum ++
            (List.replicate 12 0 ++ beBytes 4 (jamcrc v.bodyBytes)))))))) := by
    have h1 : v.encode64.drop 16 = (v.encode64.drop 12).drop 4 := by
      rw [List.drop_drop]
    rw [h1, hdrop12]
    exact List.drop_left' (length_beBytes 4 v.lnum)
  have hdrop20 : v.encode64.drop 20 =
      beBytes 4 v.data_size ++ (beBytes 4 v.used_ebs ++ (beBytes 4 v.data_pad ++
        (beBytes 4 v.data_crc ++ (List.replicate 4 0 ++ (beBytes 8 v.sqnum ++
          (List.replicate 12 0 ++ beBytes 4 (jamcrc v.bodyBytes))))))) := by
    have h1 : v.encode64.drop 20 = (v.encode64.drop 16).drop 4 := by
      rw [List.drop_drop]
    rw [h1, hdrop16]
    exact List.drop_left' (List.length_replicate 4 0)
  have hdrop24 : v.encode64.drop 24 =
      beBytes 4 v.used_ebs ++ (beBytes 4 v.data_pad ++
        (beBytes 4 v.data_crc ++ (List.replicate 4 0 ++ (beBytes 8 v.sqnum ++
          (List.replicate 12 0 ++ beBytes 4 (jamcrc v.bodyBytes)))))) := by
    have h1 : v.encode64.drop 24 = (v.encode64.drop 20).drop 4 := by
      rw [List.drop_drop]
    rw [h1, hdrop20]
    exact List.drop_left' (length_beBytes 4 v.data_size)
  have hdrop28 : v.encode64.drop 28 =
      beBytes 4 v.data_pad ++
        (beBytes 4 v.data_crc ++ (List.replicate 4 0 ++ (beBytes 8 v.sqnum ++
          (List.replicate 12 0 ++ beBytes 4 (jamcrc v.bodyBytes))))) := by
    have h1 : v.encode64.drop 28 = (v.encode64.drop 24).drop 4 := by
      rw [List.drop_drop]
    rw [h1, hdrop24]
    exact List.drop_left' (length_beBytes 4 v.used_ebs)
  have hdrop32 : v.encode64.drop 32 =
      beBytes 4 v.data_crc ++ (List.replicate 4 0 ++ (beBytes 8 v.sqnum ++
        (List.replicate 12 0 ++ beBytes 4 (jamcrc v.bodyBytes)))) := by
    have h1 : v.encode64.drop 32 = (v.encode64.drop 28).drop 4 := by
      rw [List.drop_drop]
    rw [h1, hdrop28]
    exact List.drop_left' (length_beBytes 4 v.data_pad)
  have hdrop36 : v.encode64.drop 36 =
      List.replicate 4 0 ++ (beBytes 8 v.sqnum ++
        (List.replicate 12 0 ++ beBytes 4 (jamcrc v.bodyBytes))) := by
    have h1 : v.encode64.drop 36 = (v.encode64.drop 32).drop 4 := by
      rw [List.drop_drop]
    rw [h1, hdrop32]
    exact List.drop_left' (length_beBytes 4 v.data_crc)
  have hdrop40 : v.encode64.drop 40 =
      beBytes 8 v.sqnum ++ (List.replicate 12 0 ++ beBytes 4 (jamcrc v.bodyBytes)) := by
    have h1 : v.encode64.drop 40 = (v.encode64.drop 36).drop 4 := by
      rw [List.drop_drop]
    rw [h1, hdrop36]
    exact List.drop_left' (List.length_replicate 4 0)
  have hvolid : (v.encode64.drop 8).take 4 = beBytes 4 v.vol_id := by
    rw [hdrop8]
    exact List.take_left' (length_beBytes 4 v.vol_id)
  have hlnum : (v.encode64.drop 12).take 4 = beBytes 4 v.lnum := by
    rw [hdrop12]
    exact List.take_left' (length_beBytes 4 v.lnum)
  have hds : (v.encode64.drop 20).take 4 = beBytes 4 v.data_size := by
    rw [hdrop20]
    exact List.take_left' (length_beBytes 4 v.data_size)
  have hue : (v.encode64.drop 24).take 4 = beBytes 4 v.used_ebs := by
    rw [hdrop24]
    exact List.take_left' (length_beBytes 4 v.used_ebs)
  have hdp : (v.encode64.drop 28).take 4 = beBytes 4 v.data_pad := by
    rw [hdrop28]
    exact List.take_left' (length_beBytes 4 v.data_pad)
  have hdc : (v.encode64.drop 32).take 4 = beBytes 4 v.data_crc := by
    rw [hdrop32]
    exact List.take_left' (length_beBytes 4 v.data_crc)
  have hsq : (v.encode64.drop 40).take 8 = beBytes 8 v.sqnum := by
    rw [hdrop40]
    exact List.take_left' (length_beBytes 8 v.sqnum)
  rw [Vid.decode]
  rw [if_neg (by omega)]
  simp only [htake, hmagic, hver, hvt, hcf, hcompat, hdrop60, htake60, hcrc, hvolid, hlnum,
    hds, hue, hdp, hdc, hsq]
  rw [if_pos ⟨trivial, trivial, trivial⟩]
  rw [volTypeOfByte_toByte]
  simp only [beVal_beBytes, copyFlagByte_ne]
  have hc256 : v.compat % 256 = v.compat % 2 ^ 8 := by norm_num
  rw [hc256]

theorem Vid.encode64_mod_vid (v : Vid) :
    Vid.encode64 ⟨v.vol_type, v.copy_flag, v.compat % 2 ^ 8, v.vol_id % 2 ^ 32,
      v.lnum % 2 ^ 32, v.data_size % 2 ^ 32, v.used_ebs % 2 ^ 32, v.data_pad % 2 ^ 32,
      v.data_crc % 2 ^ 32, v.sqnum % 2 ^ 64⟩ = Vid.encode64 v := by
  have h8 : (2 : Nat) ^ 64 = 2 ^ (8 * 8) := by norm_num
  have h4 : (2 : Nat) ^ 32 = 2 ^ (8 * 4) := by norm_num
  have hc : v.compat % 2 ^ 8 % 256 = v.compat % 256 := by
    have : (2 : Nat) ^ 8 = 256 := by norm_num
    rw [this]
    exact Nat.mod_mod_of_dvd _ dvd_rfl
  simp only [Vid.encode64, Vid.bodyBytes, h8, h4, hc, beBytes_mod]

/-- The fields of a UBI volume-table record that the installer uses
(struct `VolTableRecord` in `src/ubi/headers.rs`); the Rust `String` name
is modelled by its UTF-8 byte sequence. -/
structure VolTableRecord where
  reserved_pebs : Nat
  alignment : Nat
  data_pad : Nat
  vol_type : VolType
  upd_marker : Bool
  name : List Nat
  flags : Nat
deriving DecidableEq

instance : Inhabited VolTableRecord := ⟨⟨0, 0, 0, .Dynamic, false, [], 0⟩⟩

/-- Modelled from the spec: the first 168 bytes of the serialized
`VtblRecord` (the `income` crate layout: `reserved_pebs`, `alignment`,
`data_pad` u32 BE, `vol_type`, `upd_marker` bytes, `name_len` u16 BE,
128 name bytes zero-padded, `flags` byte, 23 padding bytes); the trailing
4-byte JAMCRC completes the fixed 172-byte record. -/
def VolTableRecord.bodyBytes (r : VolTableRecord) : List Nat :=
  beBytes 4 r.reserved_pebs ++ beBytes 4 r.alignment ++ beBytes 4 r.data_pad ++
    [r.vol_type.toByte] ++ [if r.upd_marker then 1 else 0] ++ beBytes 2 r.name.length ++
    (r.name ++ List.replicate (128 - r.name.length) 0) ++ [r.flags % 256] ++
    List.replicate 23 0

/-- `VolTableRecord::into_bytes`: serialize to the 172-byte record.  The
Rust code panics (`copy_from_slice`) when the name exceeds the 128-byte
name buffer; that is modelled as `none`. -/
def VolTableRecord.into_bytes (r : VolTableRecord) : Option (List Nat) :=
  if 128 < r.name.length then none
  else some (r.bodyBytes ++ beBytes 4 (jamcrc r.bodyBytes))

/-- `VolTableRecord::none_into_bytes`: an all-zero record with a valid CRC. -/
def VolTableRecord.none_into_bytes : List Nat :=
  List.replicate 168 0 ++ beBytes 4 (jamcrc (List.replicate 168 0))

/-- `VolTableRecord::decode`: parse the 172-byte record, checking only the
CRC, then convert (`TryFrom<VtblRecord> for VolTableRecord`), which fails
on an invalid `vol_type` byte or a name that is not valid UTF-8.  (A
`name_len` beyond the 128-byte buffer makes the Rust conversion panic when
slicing; that is modelled as `none`.) -/
def VolTableRecord.decode (bytes : List Nat) : Option VolTableRecord :=
  if bytes.length < 172 then none
  else
    let b := bytes.take 172
    if beVal (b.drop 168) = jamcrc (b.take 168) then
      match volTypeOfByte ((b.drop 12).headD 0) with
      | none => none
      | some vt =>
        let name_len := beVal ((b.drop 14).take 2)
        if 128 < name_len then none
        else
          let nm := ((b.drop 16).take 128).take name_len
          if isValidUtf8 nm then
            some { reserved_pebs := beVal (b.take 4), alignment := beVal ((b.drop 4).take 4),
                   data_pad := beVal ((b.drop 8).take 4), vol_type := vt,
                   upd_marker := (b.drop 13).headD 0 != 0, name := nm,
                   flags := (b.drop 144).headD 0 }
          else none
    else none

theorem VolTableRecord.length_bodyBytes_vtbl (r : VolTableRecord) (h : r.name.length ≤ 128) :
    r.bodyBytes.length = 168 := by
  simp [VolTableRecord.bodyBytes, length_beBytes]
  omega

theorem VolTableRecord.decode_into_bytes (r : VolTableRecord) (hlen128 : r.name.length ≤ 128)
    (hutf : isValidUtf8 r.name = true) :
    VolTableRecord.decode (r.bodyBytes ++ beBytes 4 (jamcrc r.bodyBytes)) =
    some { reserved_pebs := r.reserved_pebs % 2 ^ 32, alignment := r.alignment % 2 ^ 32,
           data_pad := r.data_pad % 2 ^ 32, vol_type := r.vol_type,
           upd_marker := r.upd_marker, name := r.name, flags := r.flags % 2 ^ 8 } := by
  set E := r.bodyBytes ++ beBytes 4 (jamcrc r.bodyBytes) with hE
  have hbodylen : r.bodyBytes.length = 168 := VolTableRecord.length_bodyBytes_vtbl r hlen128
  have hlen : E.length = 172 := by
    simp [hE, hbodylen, length_beBytes]
  have htake : E.take 172 = E := List.take_of_length_le (le_of_eq hlen)
  have htake168 : E.take 168 = r.bodyBytes := List.take_left' hbodylen
  have hdrop168 : E.drop 168 = beBytes 4 (jamcrc r.bodyBytes) := List.drop_left' hbodylen
  have hcrc : beVal (beBytes 4 (jamcrc r.bodyBytes)) = jamcrc r.bodyBytes := by
    rw [beVal_beBytes]
    exact Nat.mod_eq_of_lt (lt_of_lt_of_le (jamcrc_lt _) (by norm_num))
  have hEeq : E = beBytes 4 r.reserved_pebs ++ (beBytes 4 r.alignment ++
      (beBytes 4 r.data_pad ++ (r.vol_type.toByte :: (if r.upd_marker then 1 else 0) ::
        (beBytes 2 r.name.length ++ ((r.name ++ List.replicate (128 - r.name.length) 0) ++
          (r.flags % 256 :: (List.replicate 23 0 ++ beBytes 4 (jamcrc r.bodyBytes)))))))) := by
    simp [hE, VolTableRecord.bodyBytes, List.append_assoc]
  have hnamerep : (r.name ++ List.replicate (128 - r.name.length) 0).length = 128 := by
    simp
    omega
  have htake4 : E.take 4 = beBytes 4 r.reserved_pebs := by
    rw [hEeq]
    exact List.take_left' (length_beBytes 4 _)
  have hdrop4 : E.drop 4 = beBytes 4 r.alignment ++
      (beBytes 4 r.data_pad ++ (r.vol_type.toByte :: (if r.upd_marker then 1 else 0) ::
        (beBytes 2 r.name.length ++ ((r.name ++ List.replicate (128 - r.name.length) 0) ++
          (r.flags % 256 :: (List.replicate 23 0 ++ beBytes 4 (jamcrc r.bodyBytes))))))) := by
    rw [hEeq]
    exact List.drop_left' (length_beBytes 4 _)
  have hdrop8 : E.drop 8 = beBytes 4 r.data_pad ++
      (r.vol_type.toByte :: (if r.upd_marker then 1 else 0) ::
        (beBytes 2 r.name.length ++ ((r.name ++ List.replicate (128 - r.name.length) 0) ++
          (r.flags % 256 :: (List.replicate 23 0 ++ beBytes 4 (jamcrc r.bodyBytes)))))) := by
    have h1 : E.drop 8 = (E.drop 4).drop 4 := by
      rw [List.drop_drop]
    rw [h1, hdrop4]
    exact List.drop_left' (length_beBytes 4 _)
  have hdrop12 : E.drop 12 = r.vol_type.toByte :: (if r.upd_marker then 1 else 0) ::
      (beBytes 2 r.name.length ++ ((r.name ++ List.replicate (128 - r.name.length) 0) ++
        (r.flags % 256 :: (List.replicate 23 0 ++ beBytes 4 (jamcrc r.bodyBytes))))) := by
    have h1 : E.drop 12 = (E.drop 8).drop 4 := by
      rw [List.drop_drop]
    rw [h1, hdrop8]
    exact List.drop_left' (length_beBytes 4 _)
  have hdrop13 : E.drop 13 = (if r.upd_marker then 1 else 0) ::
      (beBytes 2 r.name.length ++ ((r.name ++ List.replicate (128 - r.name.length) 0) ++
        (r.flags % 256 :: (List.replicate 23 0 ++ beBytes 4 (jamcrc r.bodyBytes))))) := by
    have h1 : E.drop 13 = (E.drop 12).drop 1 := by
      rw [List.drop_drop]
    rw [h1, hdrop12]
    rfl
  have hdrop14 : E.drop 14 =
      beBytes 2 r.name.length ++ ((r.name ++ List.replicate (128 - r.name.length) 0) ++
        (r.flags % 256 :: (List.replicate 23 0 ++ beBytes 4 (jamcrc r.bodyBytes)))) := by
    have h1 : E.drop 14 = (E.drop 13).drop 1 := by
      rw [List.drop_drop]
    rw [h1, hdrop13]
    rfl
  have htake14 : (E.drop 14).take 2 = beBytes 2 r.name.length := by
    rw [hdrop14]
    exact List.take_left' (length_beBytes 2 _)
  have hdrop16 : E.drop 16 = (r.name ++ List.replicate (128 - r.name.length) 0) ++
      (r.flags % 256 :: (List.replicate 23 0 ++ beBytes 4 (jamcrc r.bodyBytes))) := by
    have h1 : E.drop 16 = (E.drop 14).drop 2 := by
      rw [List.drop_drop]
    rw [h1, hdrop14]
    exact List.drop_left' (length_beBytes 2 _)
  have htake128 : (E.drop 16).take 128 = r.name ++ List.replicate (128 - r.name.length) 0 := by
    rw [hdrop16]
    exact List.take_left' hnamerep
  have hdrop144 : E.drop 144 =
      r.flags % 256 :: (List.replicate 23 0 ++ beBytes 4 (jamcrc r.bodyBytes)) := by
    have h1 : E.drop 144 = (E.drop 16).drop 128 := by
      rw [List.drop_drop]
    rw [h1, hdrop16]
    exact List.drop_left' hnamerep
  have hnl : beVal (beBytes 2 r.name.length) = r.name.length := by
    rw [beVal_beBytes]
    exact Nat.mod_eq_of_lt (by omega)
  have hnm : (r.name ++ List.replicate (128 - r.name.length) 0).take r.name.length = r.name :=
    List.take_left' rfl
  rw [VolTableRecord.decode]
  rw [if_neg (by omega)]
  simp only [htake, hdrop168, htake168, hcrc, hdrop12, List.headD_cons]
  rw [if_pos trivial, volTypeOfByte_toByte]
  simp only [htake14, hnl, hnm, htake4, hdrop4, hdrop8, hdrop13, hdrop144, List.headD_cons]
  rw [if_neg (by omega)]
  simp only [htake128, hnm, hutf, if_pos]
  have htl : (beBytes 4 r.alignment ++
      (beBytes 4 r.data_pad ++ (r.vol_type.toByte :: (if r.upd_marker then 1 else 0) ::
        (beBytes 2 r.name.length ++ ((r.name ++ List.replicate (128 - r.name.length) 0) ++
          (r.flags % 256 :: (List.replicate 23 0 ++
            beBytes 4 (jamcrc r.bodyBytes)))))))).take 4 = beBytes 4 r.alignment :=
    List.take_left' (length_beBytes 4 _)
  have htl2 : (beBytes 4 r.data_pad ++
      (r.vol_type.toByte :: (if r.upd_marker then 1 else 0) ::
        (beBytes 2 r.name.length ++ ((r.name ++ List.replicate (128 - r.name.length) 0) ++
          (r.flags % 256 :: (List.replicate 23 0 ++
            beBytes 4 (jamcrc r.bodyBytes))))))).take 4 = beBytes 4 r.data_pad :=
    List.take_left' (length_beBytes 4 _)
  simp only [htl, htl2, beVal_beBytes, copyFlagByte_ne]
  norm_num

theorem VolTableRecord.into_bytes_mod (r : VolTableRecord) :
    VolTableRecord.into_bytes ⟨r.reserved_pebs % 2 ^ 32, r.alignment % 2 ^ 32,
      r.data_pad % 2 ^ 32, r.vol_type, r.upd_marker, r.name, r.flags % 2 ^ 8⟩ =
    VolTableRecord.into_bytes r := by
  have h4 : (2 : Nat) ^ 32 = 2 ^ (8 * 4) := by norm_num
  have hf : r.flags % 2 ^ 8 % 256 = r.flags % 256 := by
    have h : (2 : Nat) ^ 8 = 256 := by norm_num
    rw [h]
    exact Nat.mod_mod_of_dvd _ dvd_rfl
  simp only [VolTableRecord.into_bytes, VolTableRecord.bodyBytes, h4, hf, beBytes_mod]

/-- A "valid field assignment" for a volume-table record: numeric fields
fit their on-flash widths, and the name is what a Rust `String` that fits
the 128-byte name buffer guarantees (valid UTF-8 bytes). -/
def validVtbl (r : VolTableRecord) : Prop :=
  r.reserved_pebs < 2 ^ 32 ∧ r.alignment < 2 ^ 32 ∧ r.data_pad < 2 ^ 32 ∧ r.flags < 2 ^ 8 ∧
    r.name.length ≤ 128 ∧ (∀ b ∈ r.name, b < 256) ∧ isValidUtf8 r.name = true

instance (r : VolTableRecord) : Decidable (validVtbl r) := by
  unfold validVtbl
  infer_instance

/-- C9: for each of the three header kinds (EC header, VID header,
volume-table record) and every valid field assignment `h`, decoding the
encoding of `h` yields `h`; and for every byte string `b` produced by the
encoder, encoding the decoding of `b` yields `b` again. -/
theorem C9_header_roundtrip :
    (∀ e : Ec, validEc e → Ec.decode (Ec.encode64 e) = some e) ∧
    (∀ e : Ec, ∃ e2, Ec.decode (Ec.encode64 e) = some e2 ∧ Ec.encode64 e2 = Ec.encode64 e) ∧
    (∀ v : Vid, validVid v → Vid.decode (Vid.encode64 v) = some v) ∧
    (∀ v : Vid, ∃ v2, Vid.decode (Vid.encode64 v) = some v2 ∧
      Vid.encode64 v2 = Vid.encode64 v) ∧
    (∀ r : VolTableRecord, validVtbl r →
      ∃ b, VolTableRecord.into_bytes r = some b ∧ VolTableRecord.decode b = some r) ∧
    (∀ (r : VolTableRecord) (b : List Nat), isValidUtf8 r.name = true →
      VolTableRecord.into_bytes r = some b →
      ∃ r2, VolTableRecord.decode b = some r2 ∧ VolTableRecord.into_bytes r2 = some b) := by
  refine ⟨?_, ?_, ?_, ?_, ?_, ?_⟩
  · intro e h
    obtain ⟨h1, h2, h3, h4⟩ := h
    rw [Ec.decode_encode64]
    simp only [Nat.mod_eq_of_lt h1, Nat.mod_eq_of_lt h2, Nat.mod_eq_of_lt h3,
      Nat.mod_eq_of_lt h4]
  · intro e
    exact ⟨_, Ec.decode_encode64 e, Ec.encode64_mod e⟩
  · intro v h
    obtain ⟨h1, h2, h3, h4, h5, h6, h7, h8⟩ := h
    rw [Vid.decode_encode64_vid]
    simp only [Nat.mod_eq_of_lt h1, Nat.mod_eq_of_lt h2, Nat.mod_eq_of_lt h3,
      Nat.mod_eq_of_lt h4, Nat.mod_eq_of_lt h5, Nat.mod_eq_of_lt h6, Nat.mod_eq_of_lt h7,
      Nat.mod_eq_of_lt h8]
  · intro v
    exact ⟨_, Vid.decode_encode64_vid v, Vid.encode64_mod_vid v⟩
  · intro r h
    obtain ⟨h1, h2, h3, h4, h5, _, h7⟩ := h
    refine ⟨r.bodyBytes ++ beBytes 4 (jamcrc r.bodyBytes), ?_, ?_⟩
    · rw [VolTableRecord.into_bytes, if_neg (by omega)]
    · rw [VolTableRecord.decode_into_bytes r h5 h7]
      simp only [Nat.mod_eq_of_lt h1, Nat.mod_eq_of_lt h2, Nat.mod_eq_of_lt h3,
        Nat.mod_eq_of_lt h4]
  · intro r b hutf hb
    by_cases h128 : 128 < r.name.length
    · rw [VolTableRecord.into_bytes, if_pos h128] at hb
      exact absurd hb (by simp)
    · rw [VolTableRecord.into_bytes, if_neg h128] at hb
      have hb2 : b = r.bodyBytes ++ beBytes 4 (jamcrc r.bodyBytes) := (Option.some.inj hb).symm
      subst hb2
      refine ⟨_, VolTableRecord.decode_into_bytes r (by omega) hutf, ?_⟩
      rw [VolTableRecord.into_bytes_mod r, VolTableRecord.into_bytes, if_neg h128]

/-- Witness for C9 at concrete headers: a concrete valid EC header, VID
header and volume-table record each survive the decode-of-encode
round-trip. -/
theorem C9_header_roundtrip_witness :
    (validEc ⟨5, 128, 256, 7⟩ ∧
      Ec.decode (Ec.encode64 ⟨5, 128, 256, 7⟩) = some ⟨5, 128, 256, 7⟩) ∧
    (validVid ⟨.Static, true, 5, 2, 3, 1024, 4, 0, 9, 77⟩ ∧
      Vid.decode (Vid.encode64 ⟨.Static, true, 5, 2, 3, 1024, 4, 0, 9, 77⟩) =
        some ⟨.Static, true, 5, 2, 3, 1024, 4, 0, 9, 77⟩) ∧
    (validVtbl ⟨4, 1, 0, .Static, false, [0x75, 0x62, 0x69], 0⟩ ∧
      ∃ b, VolTableRecord.into_bytes ⟨4, 1, 0, .Static, false, [0x75, 0x62, 0x69], 0⟩ = some b ∧
        VolTableRecord.decode b = some ⟨4, 1, 0, .Static, false, [0x75, 0x62, 0x69], 0⟩) :=
  ⟨⟨by decide, C9_header_roundtrip.1 _ (by decide)⟩,
   ⟨by decide, C9_header_roundtrip.2.2.1 _ (by decide)⟩,
   ⟨by decide, C9_header_roundtrip.2.2.2.2.1 _ (by decide)⟩⟩

/-! ## NAND simulator (`src/nand/mod.rs`)

`SimBlock` stores all bytes of all written pages in `data` (the written
prefix, only ever appended to between erases), mirroring the Rust struct.
Fallible operations model `anyhow::Result` as `Except Unit`. -/

/-- `SimBlock` from `src/nand/mod.rs`. -/
structure SimBlock where
  data : List Nat
  page_count : Nat
  page_size : Nat
  marked_bad : Bool
deriving DecidableEq

/-- `SimBlock::write_page`: a single-page program.  Fails unless the
content is exactly one page, the page index is in range, and the write
starts at or after the end of the already-written area.  Writing a fully
erased (all-`0xFF`) page is a no-op. -/
def SimBlock.write_page (b : SimBlock) (index : Nat) (content : List Nat) :
    Except Unit SimBlock :=
  if content.length ≠ b.page_size then .error ()
  else if ¬ index < b.page_count then .error ()
  else
    let st := index * b.page_size
    if ¬ b.data.length ≤ st then .error ()
    else if content.all (· = 0xFF) then .ok b
    else .ok { b with data := (b.data ++ List.replicate (st - b.data.length) 0xFF) ++ content }

/-- The bytes of one page as `SimBlock::read_page` returns them: written
data where present, `0xFF` beyond the written prefix. -/
def SimBlock.pageBytes (b : SimBlock) (index : Nat) : List Nat :=
  let s := (b.data.drop (index * b.page_size)).take b.page_size
  s ++ List.replicate (b.page_size - s.length) 0xFF

/-- The chunk-by-chunk loop of `SimBlock::program` (via `NandBlock` for
`&mut SimBlock`), with fuel bounding the number of chunks. -/
def SimBlock.programGo (fuel : Nat) (b : SimBlock) (page : Nat) (content : List Nat) :
    Except Unit SimBlock :=
  match fuel with
  | 0 => .error ()
  | fuel + 1 =>
    if content.isEmpty then .ok b
    else
      match b.write_page page (content.take b.page_size) with
      | .error e => .error e
      | .ok b2 => SimBlock.programGo fuel b2 (page + 1) (content.drop b.page_size)

/-- `NandBlock::program` for the simulator: write the content page by page
starting at `start_page` (page index strictly increasing). -/
def SimBlock.program (b : SimBlock) (start_page : Nat) (content : List Nat) :
    Except Unit SimBlock :=
  SimBlock.programGo (content.length + 1) b start_page content

/-- `NandBlock::erase` for the simulator: clear the written prefix. -/
def SimBlock.erase (b : SimBlock) : SimBlock := { b with data := [] }

/-- `NandBlock::mark_bad` for the simulator: erase, then flag the block. -/
def SimBlock.mark_bad (b : SimBlock) : SimBlock := { b with data := [], marked_bad := true }

/-- `SimNand` from `src/nand/mod.rs`: a fixed layout with one `SimBlock`
per physical block. -/
structure SimNand where
  blocks : List SimBlock
  pages_per_block : Nat
  bytes_per_page : Nat
deriving DecidableEq

theorem SimBlock.program_error_of_lt_data (b : SimBlock) (start : Nat) (content : List Nat)
    (hne : content ≠ []) (hlt : start * b.page_size < b.data.length) :
    SimBlock.program b start content = .error () := by
  rw [SimBlock.program, SimBlock.programGo]
  rw [if_neg (by simpa using hne)]
  have hwp : b.write_page start (content.take b.page_size) = .error () := by
    rw [SimBlock.write_page]
    by_cases h1 : (content.take b.page_size).length ≠ b.page_size
    · rw [if_pos h1]
    · rw [if_neg h1]
      by_cases h2 : ¬ start < b.page_count
      · rw [if_pos h2]
      · rw [if_neg h2, if_pos (by omega)]
  rw [hwp]

theorem SimBlock.programGo_erased_noop (fuel : Nat) :
    ∀ (b : SimBlock) (page : Nat) (content : List Nat) (b2 : SimBlock),
      content.all (· = 0xFF) = true →
      SimBlock.programGo fuel b page content = .ok b2 → b2 = b := by
  induction fuel with
  | zero =>
    intro b page content b2 _ h
    simp [SimBlock.programGo] at h
  | succ fuel ih =>
    intro b page content b2 hff h
    rw [SimBlock.programGo] at h
    by_cases hemp : content.isEmpty
    · rw [if_pos hemp] at h
      exact (Except.ok.inj h).symm
    · rw [if_neg hemp] at h
      have htake : (content.take b.page_size).all (· = 0xFF) = true := by
        rw [List.all_eq_true] at hff ⊢
        intro x hx
        exact hff x (List.mem_of_mem_take hx)
      have hdrop : (content.drop b.page_size).all (· = 0xFF) = true := by
        rw [List.all_eq_true] at hff ⊢
        intro x hx
        exact hff x (List.mem_of_mem_drop hx)
      rw [SimBlock.write_page] at h
      by_cases h1 : (content.take b.page_size).length ≠ b.page_size
      · rw [if_pos h1] at h
        simp at h
      · rw [if_neg h1] at h
        by_cases h2 : ¬ page < b.page_count
        · rw [if_pos h2] at h
          simp at h
        · rw [if_neg h2] at h
          by_cases h3 : ¬ b.data.length ≤ page * b.page_size
          · rw [if_pos h3] at h
            simp at h
          · rw [if_neg h3, if_pos htake] at h
            exact ih b (page + 1) (content.drop b.page_size) b2 hdrop h

/-- The all-0xFF-program no-op clause of the simulator contract: a
successful program whose content is entirely `0xFF` leaves the block
(and in particular its written prefix) unchanged. -/
theorem SimBlock.program_erased_noop (b : SimBlock) (start : Nat) (content : List Nat)
    (b2 : SimBlock) (hff : content.all (· = 0xFF) = true)
    (h : SimBlock.program b start content = .ok b2) : b2 = b :=
  SimBlock.programGo_erased_noop _ b start content b2 hff h

/-- C10 counterexample: on a fresh simulated block, `program(0, all-0xFF)`
succeeds (touching page 0), yet a second `program` with `start_page = 0`
— which does not exceed the highest page touched by that previous
successful program — succeeds instead of returning an error, because an
all-0xFF program is a no-op that does not advance the written prefix.
This refutes the claim that the error occurs for every previous successful
program "including the case where the previous program wrote all-0xFF
content". -/
theorem C10_counterexample :
    SimBlock.program ⟨[], 4, 2, false⟩ 0 [0xFF, 0xFF] = .ok ⟨[], 4, 2, false⟩ ∧
    SimBlock.program ⟨[], 4, 2, false⟩ 0 [0xAA, 0xAA] = .ok ⟨[0xAA, 0xAA], 4, 2, false⟩ :=
  ⟨rfl, rfl⟩

/-- C10 (amended): `program(start_page, buf)` returns an error whenever
`start_page` does not exceed the highest page covered by the block's
retained written prefix (`start_page * page_size < data.len()`) — that is,
the highest page touched by a previous successful program whose content
was not entirely `0xFF`; and a successful program of all-`0xFF` content is
a no-op that leaves the block (hence the constraint on later programs)
unchanged. -/
theorem C10_amended_program_order :
    (∀ (b : SimBlock) (start : Nat) (content : List Nat), content ≠ [] →
      start * b.page_size < b.data.length → SimBlock.program b start content = .error ()) ∧
    (∀ (b : SimBlock) (start : Nat) (content : List Nat) (b2 : SimBlock),
      content.all (· = 0xFF) = true → SimBlock.program b start content = .ok b2 → b2 = b) :=
  ⟨fun b s c h1 h2 => SimBlock.program_error_of_lt_data b s c h1 h2,
   fun b s c b2 h1 h2 => SimBlock.program_erased_noop b s c b2 h1 h2⟩

/-- Witness for C10 (amended) at a concrete block: programming inside the
written prefix of a block holding one written page fails. -/
theorem C10_amended_program_order_witness :
    ([0x11, 0x22] : List Nat) ≠ [] ∧
    0 * (SimBlock.mk [0xAA, 0xAA] 4 2 false).page_size <
      (SimBlock.mk [0xAA, 0xAA] 4 2 false).data.length ∧
    SimBlock.program (SimBlock.mk [0xAA, 0xAA] 4 2 false) 0 [0x11, 0x22] = .error () :=
  ⟨by decide, by decide,
    C10_amended_program_order.1 _ 0 _ (by decide) (by decide)⟩

/-! ## Block scanner (`src/ubi/scan.rs`) -/

/-- `BlockContent`: the six content states a scanned block may be in. -/
inductive BlockContent
  | Bad
  | Erased
  | EcErased (e : Ec)
  | EcData (e : Ec) (v : Option Vid)
  | RawVid (v : Vid)
  | Garbage
deriving DecidableEq

instance : Inhabited BlockContent := ⟨BlockContent.Bad⟩

/-- The Erase-Block Table: one `BlockContent` per physical block. -/
def Ebt := List BlockContent

/-- Outcome of examining one page during a scan: either the loop returns a
final classification (`error c` models the early `return`), or it
continues with the current EC-header candidate. -/
def ScanStep := Except BlockContent (Option Ec)

/-- The per-page body of the scan loop in `BlockContent::scan_block`:
page 0 is probed for a VID header (→ `RawVid`) and then an EC header;
any non-erased page classifies the block (`EcData`, with a VID decoded
only from page 1, or `Garbage` when no EC header was seen). -/
def scanPage (b : SimBlock) (echdr : Option Ec) (page : Nat) : ScanStep :=
  let pb := b.pageBytes page
  if page = 0 then
    match Vid.decode pb with
    | some hdr => .error (.RawVid hdr)
    | none =>
      match Ec.decode pb with
      | some hdr => .ok (some hdr)
      | none =>
        if ¬ (pb.all (· = 0xFF) = true) then
          .error (echdr.elim .Garbage (fun x => .EcData x none))
        else .ok echdr
  else
    if ¬ (pb.all (· = 0xFF) = true) then
      .error (echdr.elim .Garbage
        (fun x => .EcData x (if page = 1 then Vid.decode pb else none)))
    else .ok echdr

/-- Scan the pages of one 4-page chunk in order, stopping at the first
final classification. -/
def scanChunk (b : SimBlock) (echdr : Option Ec) : List Nat → ScanStep
  | [] => .ok echdr
  | p :: ps =>
    match scanPage b echdr p with
    | .error c => .error c
    | .ok e2 => scanChunk b e2 ps

/-- The chunked scan loop of `BlockContent::scan_block`: `n` chunks of
`PAGE_CHUNKS = 4` pages remain, the next chunk starts at page `sp`.  If an
EC header was found and the loop reaches the next chunk boundary, the scan
stops early and classifies the block `EcErased` (the remaining pages are
assumed erased); a loop that runs out of pages classifies by whether an EC
header was seen (`EcErased`) or not (`Erased`). -/
def scanGo (b : SimBlock) : Nat → Nat → Option Ec → BlockContent
  | 0, _, echdr => echdr.elim .Erased .EcErased
  | n + 1, sp, echdr =>
    match echdr with
    | some e => .EcErased e
    | none =>
      let endPage := min b.page_count (sp + 4)
      match scanChunk b none (List.range' sp (endPage - sp)) with
      | .error c => c
      | .ok e2 => scanGo b n (sp + 4) e2

/-- `BlockContent::scan_block`: classify a (readable) simulated block. -/
def BlockContent.scan_block (b : SimBlock) : BlockContent :=
  scanGo b ((b.page_count + 3) / 4) 0 none

/-- `scan_blocks`: build the EBT (bad blocks yield `Bad` without reading). -/
def scan_blocks (n : SimNand) : List BlockContent :=
  n.blocks.map (fun b => if b.marked_bad then .Bad else BlockContent.scan_block b)

theorem Vid.decode_none_of_ec (bs : List Nat) (e : Ec) (h : Ec.decode bs = some e) :
    Vid.decode bs = none := by
  simp only [Ec.decode] at h
  split at h
  · exact absurd h (by simp)
  · next hl =>
    split at h
    · next hcond =>
      have hmagic : (bs.take 64).take 4 = UBI_EC_HDR_MAGIC := hcond.1
      simp only [Vid.decode]
      rw [if_neg hl]
      have hcond2 : ¬ ((bs.take 64).take 4 = UBI_VID_HDR_MAGIC ∧
          ((bs.take 64).drop 4).headD 0 = UBI_VERSION ∧
          beVal ((bs.take 64).drop 60) = jamcrc ((bs.take 64).take 60)) := by
        intro hv
        rw [hmagic] at hv
        exact absurd hv.1 (by decide)
      rw [if_neg hcond2]
    · next hcond =>
      exact absurd h (by simp)

theorem scanGo_some (b : SimBlock) (e : Ec) (n sp : Nat) :
    scanGo b n sp (some e) = .EcErased e := by
  cases n <;> rfl

theorem scanChunk_none_result (b : SimBlock) (ps : List Nat) (hps : ∀ p ∈ ps, p ≠ 0) :
    scanChunk b none ps = .ok none ∨ scanChunk b none ps = .error .Garbage := by
  induction ps with
  | nil => exact Or.inl rfl
  | cons p ps ih =>
    have hp : p ≠ 0 := hps p (by simp)
    rw [scanChunk]
    by_cases he : (b.pageBytes p).all (· = 0xFF) = true
    · have hsp : scanPage b none p = Except.ok none := by
        simp [scanPage, hp, he, Option.elim]
      rw [hsp]
      exact ih (fun q hq => hps q (List.mem_cons_of_mem _ hq))
    · have hsp : scanPage b none p = Except.error BlockContent.Garbage := by
        simp [scanPage, hp, he, Option.elim]
      rw [hsp]
      exact Or.inr rfl

theorem scanGo_none_ne (b : SimBlock) (n : Nat) :
    ∀ sp, 1 ≤ sp → ∀ e, scanGo b n sp none ≠ .EcErased e := by
  induction n with
  | zero =>
    intro sp _ e
    simp [scanGo, Option.elim]
  | succ n ih =>
    intro sp hsp e
    rw [scanGo]
    have hps : ∀ p ∈ List.range' sp (min b.page_count (sp + 4) - sp), p ≠ 0 := by
      intro p hp
      have := (List.mem_range'_1.mp hp).1
      omega
    rcases scanChunk_none_result b _ hps with h | h
    · rw [h]
      exact ih (sp + 4) (by omega) e
    · rw [h]
      simp

theorem scanChunk_some_eq (b : SimBlock) (e : Ec) (ps : List Nat) (hps : ∀ p ∈ ps, p ≠ 0) :
    (ps.all (fun p => (b.pageBytes p).all (· = 0xFF)) = true ∧
      scanChunk b (some e) ps = .ok (some e)) ∨
    (ps.all (fun p => (b.pageBytes p).all (· = 0xFF)) = false ∧
      ∃ v, scanChunk b (some e) ps = .error (.EcData e v)) := by
  induction ps with
  | nil => exact Or.inl ⟨rfl, rfl⟩
  | cons p ps ih =>
    have hp : p ≠ 0 := hps p (by simp)
    rw [scanChunk]
    by_cases he : (b.pageBytes p).all (· = 0xFF) = true
    · have hsp : scanPage b (some e) p = Except.ok (some e) := by
        simp [scanPage, hp, he, Option.elim]
      rw [hsp]
      rcases ih (fun q hq => hps q (List.mem_cons_of_mem _ hq)) with ⟨h1, h2⟩ | ⟨h1, h2⟩
      · exact Or.inl ⟨by simp [he, h1], h2⟩
      · exact Or.inr ⟨by simp [he, h1], h2⟩
    · have hsp : scanPage b (some e) p = Except.error
          (.EcData e (if p = 1 then Vid.decode (b.pageBytes p) else none)) := by
        simp [scanPage, hp, he, Option.elim]
      rw [hsp]
      refine Or.inr ⟨by simp [he], _, rfl⟩

theorem scanGo_succ_none (b : SimBlock) (n sp : Nat) : scanGo b (n + 1) sp none =
    (match scanChunk b none (List.range' sp (min b.page_count (sp + 4) - sp)) with
     | .error c => c
     | .ok e2 => scanGo b n (sp + 4) e2) := rfl

theorem scanChunk_cons (b : SimBlock) (eh : Option Ec) (p : Nat) (ps : List Nat) :
    scanChunk b eh (p :: ps) =
    (match scanPage b eh p with
     | .error c => .error c
     | .ok e2 => scanChunk b e2 ps) := rfl

/-- C8 (amended): the scanner classifies a readable block as
`EcErased(ec)` exactly when page 0 holds a valid EC header `ec` and the
remaining pages of the first 4-page read chunk (pages `1..min(page_count,4)`)
are erased; because of the early-exit optimization, pages from page 4 on
are not examined. -/
theorem C8_amended_scan_ecerased (b : SimBlock) (hpc : 0 < b.page_count) (e : Ec) :
    BlockContent.scan_block b = .EcErased e ↔
      (Ec.decode (b.pageBytes 0) = some e ∧
        ∀ p, 1 ≤ p → p < min b.page_count 4 →
          (b.pageBytes p).all (· = 0xFF) = true) := by
  obtain ⟨j, hj⟩ : ∃ j, min b.page_count 4 = j + 1 := ⟨min b.page_count 4 - 1, by omega⟩
  obtain ⟨n, hn⟩ : ∃ n, (b.page_count + 3) / 4 = n + 1 := ⟨(b.page_count + 3) / 4 - 1, by omega⟩
  have hps : ∀ p ∈ List.range' 1 j, p ≠ 0 := by
    intro p hp
    have := (List.mem_range'_1.mp hp).1
    omega
  have hchunk : List.range' 0 (min b.page_count (0 + 4) - 0) = 0 :: List.range' 1 j := by
    have h0 : min b.page_count (0 + 4) - 0 = j + 1 := by omega
    rw [h0]
    rfl
  rw [BlockContent.scan_block, hn, scanGo_succ_none, hchunk]
  cases hv : Vid.decode (b.pageBytes 0) with
  | some w =>
    have hsp : scanPage b none 0 = Except.error (.RawVid w) := by
      simp [scanPage, hv]
    have hfull : scanChunk b none (0 :: List.range' 1 j) = Except.error (.RawVid w) := by
      rw [scanChunk_cons, hsp]
    simp only [hfull]
    constructor
    · intro h
      simp at h
    · rintro ⟨he, _⟩
      have hnone := Vid.decode_none_of_ec _ _ he
      rw [hv] at hnone
      exact absurd hnone (by simp)
  | none =>
    cases hec : Ec.decode (b.pageBytes 0) with
    | some e0 =>
      have hsp : scanPage b none 0 = Except.ok (some e0) := by
        simp [scanPage, hv, hec]
      have hfull : scanChunk b none (0 :: List.range' 1 j) =
          scanChunk b (some e0) (List.range' 1 j) := by
        rw [scanChunk_cons, hsp]
      simp only [hfull]
      rcases scanChunk_some_eq b e0 _ hps with ⟨h1, h2⟩ | ⟨h1, h2⟩
      · simp only [h2, scanGo_some]
        constructor
        · intro h
          have he0 : e0 = e := by
            cases h
            rfl
          subst he0
          refine ⟨rfl, ?_⟩
          intro p hp1 hp2
          have hmem : p ∈ List.range' 1 j := List.mem_range'_1.mpr ⟨hp1, by omega⟩
          exact List.all_eq_true.mp h1 p hmem
        · rintro ⟨he, _⟩
          have he0 : e0 = e := by
            injection he
          rw [he0]
      · obtain ⟨v, hv2⟩ := h2
        simp only [hv2]
        constructor
        · intro h
          simp at h
        · rintro ⟨he, hall⟩
          exfalso
          have htrue : (List.range' 1 j).all
              (fun p => (b.pageBytes p).all (· = 0xFF)) = true := by
            rw [List.all_eq_true]
            intro p hp
            obtain ⟨hp1, hp2⟩ := List.mem_range'_1.mp hp
            exact hall p hp1 (by omega)
          rw [h1] at htrue
          exact absurd htrue (by simp)
    | none =>
      have hrhsfalse : ¬ ((none : Option Ec) = some e ∧
          ∀ p, 1 ≤ p → p < min b.page_count 4 →
            (b.pageBytes p).all (· = 0xFF) = true) := by
        rintro ⟨he, _⟩
        exact absurd he (by simp)
      by_cases herased : (b.pageBytes 0).all (· = 0xFF) = true
      · have hsp : scanPage b none 0 = Except.ok none := by
          simp [scanPage, hv, hec, herased, Option.elim]
        have hfull : scanChunk b none (0 :: List.range' 1 j) =
            scanChunk b none (List.range' 1 j) := by
          rw [scanChunk_cons, hsp]
        simp only [hfull]
        rcases scanChunk_none_result b _ hps with h | h
        · simp only [h]
          constructor
          · intro hcontra
            exact absurd hcontra (scanGo_none_ne b n 4 (by omega) e)
          · intro h2
            exact absurd h2 hrhsfalse
        · simp only [h]
          constructor
          · intro h2
            simp at h2
          · intro h2
            exact absurd h2 hrhsfalse
      · have hsp : scanPage b none 0 = Except.error .Garbage := by
          simp [scanPage, hv, hec, herased, Option.elim]
        have hfull : scanChunk b none (0 :: List.range' 1 j) = Except.error .Garbage := by
          rw [scanChunk_cons, hsp]
        simp only [hfull]
        constructor
        · intro h2
          simp at h2
        · intro h2
          exact absurd h2 hrhsfalse

/-- The concrete block refuting C8 as stated: page 0 holds a valid EC
header, pages 1–3 are erased, page 4 is written with `0xAA`. -/
def c8CexBlock : SimBlock :=
  ⟨Ec.encode64 ⟨5, 64, 128, 7⟩ ++ (List.replicate 192 0xFF ++ List.replicate 64 0xAA),
    8, 64, false⟩

theorem c8CexBlock_page0 : c8CexBlock.pageBytes 0 = Ec.encode64 ⟨5, 64, 128, 7⟩ := by
  have hl : (Ec.encode64 ⟨5, 64, 128, 7⟩).length = 64 := Ec.length_encode64 _
  have ht : ((Ec.encode64 ⟨5, 64, 128, 7⟩ ++
      (List.replicate 192 0xFF ++ List.replicate 64 0xAA)).take 64) =
      Ec.encode64 ⟨5, 64, 128, 7⟩ := List.take_left' hl
  simp [c8CexBlock, SimBlock.pageBytes, ht, hl]

theorem c8CexBlock_decode : Ec.decode (c8CexBlock.pageBytes 0) = some ⟨5, 64, 128, 7⟩ := by
  rw [c8CexBlock_page0, Ec.decode_encode64]
  decide

/-- C8 counterexample: a block whose page 0 holds a valid EC header, whose
pages 1–3 are erased, but whose page 4 is not erased (written with `0xAA`),
is still classified `EcErased` by the scanner's early exit — even though
not all later pages of the block are erased.  This refutes the claimed
"exactly when ... all later pages of the block are erased". -/
theorem C8_counterexample :
    BlockContent.scan_block c8CexBlock = .EcErased ⟨5, 64, 128, 7⟩ ∧
    (c8CexBlock.pageBytes 4).all (· = 0xFF) = false := by
  constructor
  · have hvidnone := Vid.decode_none_of_ec _ _ c8CexBlock_decode
    have hsp0 : scanPage c8CexBlock none 0 = Except.ok (some ⟨5, 64, 128, 7⟩) := by
      simp [scanPage, hvidnone, c8CexBlock_decode]
    have hallerased : ([1, 2, 3] : List Nat).all
        (fun p => (c8CexBlock.pageBytes p).all (· = 0xFF)) = true := by decide
    have hchunkval : scanChunk c8CexBlock none [0, 1, 2, 3] =
        Except.ok (some ⟨5, 64, 128, 7⟩) := by
      rw [scanChunk_cons, hsp0]
      rcases scanChunk_some_eq c8CexBlock ⟨5, 64, 128, 7⟩ [1, 2, 3] (by decide) with
        ⟨_, h2⟩ | ⟨h1, _⟩
      · exact h2
      · rw [hallerased] at h1
        exact absurd h1 (by simp)
    have hrange : List.range' 0 (min c8CexBlock.page_count (0 + 4) - 0) = [0, 1, 2, 3] := by
      decide
    have hn : (c8CexBlock.page_count + 3) / 4 = 1 + 1 := by decide
    rw [BlockContent.scan_block, hn, scanGo_succ_none, hrange]
    simp only [hchunkval]
    exact scanGo_some _ _ _ _
  · decide

/-- The concrete block witnessing C8 (amended): page 0 holds a valid EC
header and all other pages are erased (unwritten). -/
def c8WitBlock : SimBlock := ⟨Ec.encode64 ⟨5, 64, 128, 7⟩, 8, 64, false⟩

theorem c8WitBlock_page0 : c8WitBlock.pageBytes 0 = Ec.encode64 ⟨5, 64, 128, 7⟩ := by
  have hl : (Ec.encode64 ⟨5, 64, 128, 7⟩).length = 64 := Ec.length_encode64 _
  have ht : ((Ec.encode64 ⟨5, 64, 128, 7⟩).take 64) = Ec.encode64 ⟨5, 64, 128, 7⟩ :=
    List.take_of_length_le (le_of_eq hl)
  simp [c8WitBlock, SimBlock.pageBytes, ht, hl]

/-- Witness for C8 (amended) at a concrete block: a block holding exactly
one valid EC header on page 0 with everything else erased satisfies the
right-hand side, and the equivalence classifies it `EcErased`. -/
theorem C8_amended_scan_ecerased_witness :
    0 < c8WitBlock.page_count ∧
    BlockContent.scan_block c8WitBlock = .EcErased ⟨5, 64, 128, 7⟩ :=
  ⟨by decide, (C8_amended_scan_ecerased _ (by decide) _).mpr
    ⟨by rw [c8WitBlock_page0, Ec.decode_encode64]; decide, by
      intro p h1 h2
      have hp4 : p < 4 := by
        have hmin : min c8WitBlock.page_count 4 = 4 := by decide
        omega
      interval_cases p <;> decide⟩⟩

/-! ## Formatter (`src/ubi/format.rs`)

`format` never reads flash; its only device interactions are erase,
program and mark-bad operations plus fetching block handles, each of which
may fail on a real device.  Device behaviour is therefore modelled by an
oracle: a list of `Bool`s consumed one per primitive operation (`true` =
the operation succeeds; an exhausted oracle means every further operation
succeeds, as on the in-memory simulator). -/

/-- `FormatAction` from `src/ubi/format.rs`. -/
inductive FormatAction
  | Ignore
  | Write (e : Ec)
  | Erase (e : Ec)
deriving DecidableEq

/-- Consume one oracle entry (`true` when exhausted, like the simulator). -/
def consumeOrc (orc : List Bool) : Bool × List Bool := (orc.headD true, orc.tail)

/-- The `Erase` body of `FormatAction::execute`: erase (failure ⇒ mark bad),
encode the EC header (fails if the page buffer is smaller than the 64-byte
header), program page 0 (failure after an erase ⇒ mark bad).  The resulting
`BlockContent` for the EBT entry is returned. -/
def executeErase (pageSize : Nat) (ec : Ec) (orc : List Bool) :
    Except Unit (BlockContent × List Bool) :=
  let (eok, orc) := consumeOrc orc
  if !eok then
    let (mok, orc) := consumeOrc orc
    if mok then .ok (.Bad, orc) else .error ()
  else if pageSize < 64 then .error ()
  else
    let (pok, orc) := consumeOrc orc
    if pok then .ok (.EcErased ec, orc)
    else
      let (mok, orc) := consumeOrc orc
      if mok then .ok (.Bad, orc) else .error ()

/-- `FormatAction::execute` from `src/ubi/format.rs`: run the action,
updating the block's EBT entry.  A failed program without a prior erase
promotes the action to `Erase` with an incremented erase counter and
retries. -/
def FormatAction.execute (pageSize : Nat) :
    FormatAction → BlockContent → List Bool → Except Unit (BlockContent × List Bool)
  | .Ignore, c, orc => .ok (c, orc)
  | .Write ec, _, orc =>
    if pageSize < 64 then .error ()
    else
      let (pok, orc) := consumeOrc orc
      if pok then .ok (.EcErased ec, orc)
      else executeErase pageSize ec.inc_ec orc
  | .Erase ec, _, orc => executeErase pageSize ec orc

/-- `erase_action` from `src/ubi/format.rs`: the plain (non-migration)
per-block action. -/
def erase_action (content : BlockContent) (ec_proto : Ec) : FormatAction :=
  match content with
  | .Bad => .Ignore
  | .EcErased x => if x = ec_proto.ecSet x.ec then .Ignore else .Erase (ec_proto.ecSet (x.ec + 1))
  | .Erased => .Write ec_proto
  | .EcData x _ => .Erase (ec_proto.ecSet (x.ec + 1))
  | .RawVid _ => .Erase ec_proto
  | .Garbage => .Erase ec_proto

/-- `migrate_superblock_action` from `src/ubi/format.rs`: the actions for
an even/odd superblock pair during `SIMULATE_MULTIPLANE` migration. -/
def migrate_superblock_action (even odd : BlockContent) (ec_proto : Ec) :
    FormatAction × FormatAction :=
  let even_action := erase_action even ec_proto
  let odd_action :=
    match even, odd with
    | _, .Bad => .Ignore
    | _, .EcErased x =>
      if x = ec_proto.ecSet x.ec then .Ignore else .Erase (ec_proto.ecSet (x.ec + 1))
    | _, .EcData x _ => .Erase (ec_proto.ecSet (x.ec + 1))
    | .EcErased x, .Erased | .EcData x _, .Erased => .Write (ec_proto.ecSet x.ec)
    | .EcErased x, .RawVid _ | .EcErased x, .Garbage | .EcData x _, .RawVid _
    | .EcData x _, .Garbage => .Erase (ec_proto.ecSet (x.ec + 1))
    | _, .Erased => .Write ec_proto
    | _, .RawVid _ | _, .Garbage => .Erase ec_proto
  (even_action, odd_action)

/-- The mode (most frequent element) of a list, 0 when empty; models the
`max_by_key` over the `image_seq` tally `HashMap` in `compute_prototype`
(the tie-break among equally frequent values is unspecified in Rust; this
model keeps the earliest-seen maximal element). -/
def listMode (l : List Nat) : Nat :=
  (l.foldl (fun best x =>
    match best with
    | none => some (x, l.count x)
    | some (b, cb) => if l.count x > cb then some (x, l.count x) else some (b, cb)) none).elim
    0 (fun p => p.1)

/-- `compute_prototype` from `src/ubi/format.rs`: the EC header to be
written to every block — layout offsets from the page size, `image_seq`
the mode over EC-bearing blocks, `ec` the rounded mean erase count (1 when
no EC header was observed). -/
def compute_prototype (pageSize : Nat) (blocks : List BlockContent) : Ec :=
  let ecs := blocks.filterMap (fun c =>
    match c with
    | .EcErased x => some x
    | .EcData x _ => some x
    | _ => none)
  let image_seq := listMode (ecs.map (fun e => e.image_seq))
  let ec_sum := (ecs.map (fun e => e.ec)).sum
  let ec_count := ecs.length
  let ec := if ec_count = 0 then 1 else (ec_sum + ec_count / 2) / ec_count
  { ec := ec, vid_hdr_offset := pageSize, data_offset := 2 * pageSize, image_seq := image_seq }

/-- Does the EBT indicate the legacy `SIMULATE_MULTIPLANE` layout? -/
def needs_migration (ebt : List BlockContent) : Bool :=
  ebt.any (fun c => match c with | .RawVid _ => true | _ => false)

/-- The plain-erase work list: one action per block, `Ignore`s dropped. -/
def buildWorkPlain (ebt : List BlockContent) (proto : Ec) : List (Nat × FormatAction) :=
  (ebt.enum.map (fun p => (p.1, erase_action p.2 proto))).filter
    (fun p => p.2 ≠ FormatAction.Ignore)

/-- `chunks_exact(2)` pairing: adjacent even/odd pairs, any trailing
odd block dropped. -/
def pairsOf : List BlockContent → List (BlockContent × BlockContent)
  | a :: b :: rest => (a, b) :: pairsOf rest
  | _ => []

/-- The flattened per-block migration actions (two per superblock pair). -/
def migActions (ebt : List BlockContent) (proto : Ec) : List FormatAction :=
  (pairsOf ebt).flatMap (fun p =>
    [(migrate_superblock_action p.1 p.2 proto).1, (migrate_superblock_action p.1 p.2 proto).2])

/-- Was this block, or its superblock sibling (`i ^ 1`), `RawVid`? -/
def isVidPair (ebt : List BlockContent) (i : Nat) : Bool :=
  (match ebt.getD i .Bad with | .RawVid _ => true | _ => false) ||
    (match ebt.getD (i ^^^ 1) .Bad with | .RawVid _ => true | _ => false)

/-- The migration work list: enumerate the pair actions, drop `Ignore`s,
then build the deque — actions for a `RawVid`-containing pair are pushed
to the back, every other action to the front; execution is front-to-back. -/
def buildWorkMig (ebt : List BlockContent) (proto : Ec) : List (Nat × FormatAction) :=
  let items := ((migActions ebt proto).enum).filter (fun p => p.2 ≠ FormatAction.Ignore)
  let fb := items.foldl (fun (fb : List (Nat × FormatAction) × List (Nat × FormatAction)) p =>
    if isVidPair ebt p.1 then (fb.1, fb.2 ++ [p]) else (p :: fb.1, fb.2)) ([], [])
  fb.1 ++ fb.2

/-- Execute a work list in order: fetch the block handle (one oracle entry;
a failed fetch or a block gone bad aborts `format` with an error), run the
action, store the resulting content into the EBT. -/
def runWork (pageSize : Nat) :
    List (Nat × FormatAction) → List BlockContent → List Bool →
    Except Unit (List BlockContent × List Bool)
  | [], ebt, orc => .ok (ebt, orc)
  | (i, a) :: rest, ebt, orc =>
    let (avail, orc) := consumeOrc orc
    if !avail then .error ()
    else
      match a.execute pageSize (ebt.getD i .Bad) orc with
      | .error e => .error e
      | .ok (c, orc) => runWork pageSize rest (ebt.set i c) orc

/-- `format` from `src/ubi/format.rs`: compute the prototype EC header,
build the plain or migration work list, and execute it. -/
def format (pageSize : Nat) (ebt : List BlockContent) (orc : List Bool) :
    Except Unit (List BlockContent) :=
  let proto := compute_prototype pageSize ebt
  let work := if needs_migration ebt then buildWorkMig ebt proto else buildWorkPlain ebt proto
  (runWork pageSize work ebt orc).map (fun p => p.1)

/-- A concrete legacy VID header for the C5 migration scenario. -/
def c5Vid : Vid := ⟨.Dynamic, false, 0, 1, 2, 0, 0, 0, 0, 9⟩

/-- The C5 scenario EBT: a 16-block NAND where every even block is
`EcData` with `ec = 5` (holding a VID) and every odd block is `RawVid`. -/
def c5Ebt : List BlockContent :=
  (List.replicate 8 ()).flatMap (fun _ =>
    [BlockContent.EcData ⟨5, 512, 1024, 7⟩ (some c5Vid), BlockContent.RawVid c5Vid])

/-- C5 counterexample: after formatting the legacy-layout scenario NAND
(`{16, 16, 128}` layout, page size 128), odd block 1 ends `EcErased` with
erase counter 6, not 5 as claimed — the migration table maps
`(EcData(e,_), RawVid(_))` to `Erase(proto.with_ec(e.ec + 1))`, so the odd
block's EC is the even block's EC plus one for the erase being performed. -/
theorem C5_counterexample :
    format 128 c5Ebt [] = .ok (List.replicate 16 (BlockContent.EcErased ⟨6, 128, 256, 7⟩)) ∧
    ¬ ((List.replicate 16 (BlockContent.EcErased ⟨6, 128, 256, 7⟩)).getD 1 .Bad =
        BlockContent.EcErased (Ec.mk 5 128 256 7)) := by
  constructor
  · decide
  · decide

/-- C5 (amended): starting from a 16-block NAND in which every even block
is `EcData` with `ec = 5` (holding a VID) and every odd block is `RawVid`,
after `format` every even block is `EcErased` with `ec = 6` and every odd
block is also `EcErased` with `ec = 6` (both members of each pair are
erased once, and the odd action copies the even block's erase count plus
one). -/
theorem C5_amended_migration_scenario :
    format 128 c5Ebt [] =
      .ok (List.replicate 16 (BlockContent.EcErased ⟨6, 128, 256, 7⟩)) := by
  decide

/-- C4: under the migration plan, for every superblock pair whose even
block was `EcErased(e)` or `EcData(e, _)` and whose odd block was
`Erased`, the odd block's action is `Write` of the prototype with `ec`
set to `e.ec`; executing that action (with the device succeeding, as the
simulator always does on an erased block) leaves the odd block `EcErased`
with EC equal to `e.ec` — the pair's wear history is copied. -/
theorem C4_migration_copies_ec (proto e : Ec) (v : Option Vid) (even odd : BlockContent)
    (pageSize : Nat) (heven : even = .EcErased e ∨ even = .EcData e v)
    (hodd : odd = .Erased) (hps : 64 ≤ pageSize) :
    (migrate_superblock_action even odd proto).2 = .Write (proto.ecSet e.ec) ∧
    FormatAction.execute pageSize (.Write (proto.ecSet e.ec)) odd [] =
      .ok (.EcErased (proto.ecSet e.ec), []) ∧
    (proto.ecSet e.ec).ec = e.ec := by
  subst hodd
  refine ⟨?_, ?_, rfl⟩
  · rcases heven with h | h <;> subst h <;> rfl
  · simp [FormatAction.execute, consumeOrc, Nat.not_lt_of_le hps]

/-- Witness for C4 at a concrete pair: even `EcData(ec=5)`, odd `Erased`,
prototype `⟨9, 128, 256, 3⟩`, page size 128. -/
theorem C4_migration_copies_ec_witness :
    ((BlockContent.EcData ⟨5, 512, 1024, 7⟩ (some c5Vid) : BlockContent) =
        .EcErased ⟨5, 512, 1024, 7⟩ ∨
      (BlockContent.EcData ⟨5, 512, 1024, 7⟩ (some c5Vid) : BlockContent) =
        .EcData ⟨5, 512, 1024, 7⟩ (some c5Vid)) ∧
    (BlockContent.Erased : BlockContent) = .Erased ∧ (64 : Nat) ≤ 128 ∧
    (migrate_superblock_action (.EcData ⟨5, 512, 1024, 7⟩ (some c5Vid)) .Erased
        ⟨9, 128, 256, 3⟩).2 = .Write (Ec.ecSet ⟨9, 128, 256, 3⟩ 5) :=
  ⟨Or.inr rfl, rfl, by decide,
    (C4_migration_copies_ec ⟨9, 128, 256, 3⟩ ⟨5, 512, 1024, 7⟩ (some c5Vid) _ _ 128
      (Or.inr rfl) rfl (by decide)).1⟩

theorem buildWorkMig_fold_split (ebt : List BlockContent) :
    ∀ (items : List (Nat × FormatAction)) (f b : List (Nat × FormatAction)),
      (∀ p ∈ f, isVidPair ebt p.1 = false) → (∀ p ∈ b, isVidPair ebt p.1 = true) →
      (∀ p ∈ (items.foldl (fun fb p =>
          if isVidPair ebt p.1 then (fb.1, fb.2 ++ [p]) else (p :: fb.1, fb.2)) (f, b)).1,
        isVidPair ebt p.1 = false) ∧
      (∀ p ∈ (items.foldl (fun fb p =>
          if isVidPair ebt p.1 then (fb.1, fb.2 ++ [p]) else (p :: fb.1, fb.2)) (f, b)).2,
        isVidPair ebt p.1 = true) := by
  intro items
  induction items with
  | nil =>
    intro f b hf hb
    exact ⟨hf, hb⟩
  | cons x xs ih =>
    intro f b hf hb
    simp only [List.foldl_cons]
    by_cases hx : isVidPair ebt x.1 = true
    · rw [if_pos hx]
      refine ih f (b ++ [x]) hf ?_
      intro p hp
      rcases List.mem_append.mp hp with h | h
      · exact hb p h
      · rw [List.mem_singleton.mp h]
        exact hx
    · rw [if_neg (by simpa using hx)]
      refine ih (x :: f) b ?_ hb
      intro p hp
      rcases List.mem_cons.mp hp with h | h
      · rw [h]
        simpa using hx
      · exact hf p h

/-- C6: when migration is needed, the work list built by `format` (the
deque built by `buildWorkMig` over the migration pair actions and the
computed prototype) splits as `w1 ++ w2`, executed front-to-back, where no
entry of `w1` belongs to a superblock pair containing a `RawVid` member
and every entry of `w2` does: no `RawVid`-pair block is processed before
any non-`RawVid`-pair block. -/
theorem C6_migration_ordering (pageSize : Nat) (ebt : List BlockContent)
    (hmig : needs_migration ebt = true) :
    ∃ w1 w2, buildWorkMig ebt (compute_prototype pageSize ebt) = w1 ++ w2 ∧
      (∀ p ∈ w1, isVidPair ebt p.1 = false) ∧
      (∀ p ∈ w2, isVidPair ebt p.1 = true) := by
  have h := buildWorkMig_fold_split ebt
    (((migActions ebt (compute_prototype pageSize ebt)).enum).filter
      (fun p => p.2 ≠ FormatAction.Ignore)) [] []
    (by intro p hp; simp at hp) (by intro p hp; simp at hp)
  exact ⟨_, _, rfl, h.1, h.2⟩

/-- Witness for C6 at a concrete EBT (`[RawVid, Erased, Erased, Erased]`,
page size 128): migration is needed and the work list splits as stated. -/
theorem C6_migration_ordering_witness :
    needs_migration [BlockContent.RawVid c5Vid, .Erased, .Erased, .Erased] = true ∧
    ∃ w1 w2, buildWorkMig [BlockContent.RawVid c5Vid, .Erased, .Erased, .Erased]
        (compute_prototype 128 [BlockContent.RawVid c5Vid, .Erased, .Erased, .Erased]) =
        w1 ++ w2 ∧
      (∀ p ∈ w1, isVidPair [BlockContent.RawVid c5Vid, .Erased, .Erased, .Erased] p.1 = false) ∧
      (∀ p ∈ w2, isVidPair [BlockContent.RawVid c5Vid, .Erased, .Erased, .Erased] p.1 = true) :=
  ⟨by decide, C6_migration_ordering 128 _ (by decide)⟩

/-- The layout fields (everything except `ec`) of `e` match the prototype. -/
def layoutEq (proto e : Ec) : Prop :=
  e.vid_hdr_offset = proto.vid_hdr_offset ∧ e.data_offset = proto.data_offset ∧
    e.image_seq = proto.image_seq

theorem layoutEq_ecSet (proto : Ec) (k : Nat) : layoutEq proto (proto.ecSet k) :=
  ⟨rfl, rfl, rfl⟩

theorem layoutEq_inc (proto e : Ec) (h : layoutEq proto e) : layoutEq proto e.inc_ec := h

/-- The post-format invariant for one EBT entry: bad, or erased with an EC
header carrying the prototype's layout fields. -/
def protoOk (proto : Ec) (c : BlockContent) : Prop :=
  c = .Bad ∨ ∃ e, c = .EcErased e ∧ layoutEq proto e

theorem erase_action_layout (c : BlockContent) (proto : Ec) :
    erase_action c proto = .Ignore ∨
    ∃ ec, (erase_action c proto = .Write ec ∨ erase_action c proto = .Erase ec) ∧
      layoutEq proto ec := by
  cases c with
  | Bad => exact Or.inl rfl
  | Erased => exact Or.inr ⟨proto, Or.inl rfl, ⟨rfl, rfl, rfl⟩⟩
  | EcErased x =>
    by_cases hx : x = proto.ecSet x.ec
    · exact Or.inl (by simp only [erase_action]; rw [if_pos hx])
    · exact Or.inr ⟨proto.ecSet (x.ec + 1), Or.inr (by simp only [erase_action]; rw [if_neg hx]),
        layoutEq_ecSet proto _⟩
  | EcData x v => exact Or.inr ⟨proto.ecSet (x.ec + 1), Or.inr rfl, layoutEq_ecSet proto _⟩
  | RawVid v => exact Or.inr ⟨proto, Or.inr rfl, ⟨rfl, rfl, rfl⟩⟩
  | Garbage => exact Or.inr ⟨proto, Or.inr rfl, ⟨rfl, rfl, rfl⟩⟩

theorem erase_action_ignore (c : BlockContent) (proto : Ec)
    (h : erase_action c proto = .Ignore) : protoOk proto c := by
  cases c with
  | Bad => exact Or.inl rfl
  | Erased => exact absurd h (by simp [erase_action])
  | EcErased x =>
    by_cases hx : x = proto.ecSet x.ec
    · refine Or.inr ⟨x, rfl, ?_⟩
      rw [hx]
      exact layoutEq_ecSet proto _
    · rw [erase_action, if_neg hx] at h
      exact absurd h (by simp)
  | EcData x v => exact absurd h (by simp [erase_action])
  | RawVid v => exact absurd h (by simp [erase_action])
  | Garbage => exact absurd h (by simp [erase_action])

theorem migrate_odd_ecerased (even : BlockContent) (x : Ec) (proto : Ec) :
    (migrate_superblock_action even (.EcErased x) proto).2 =
      if x = proto.ecSet x.ec then .Ignore else .Erase (proto.ecSet (x.ec + 1)) := by
  cases even <;> rfl

theorem migrate_odd_layout (even odd : BlockContent) (proto : Ec) :
    (migrate_superblock_action even odd proto).2 = .Ignore ∨
    ∃ ec, ((migrate_superblock_action even odd proto).2 = .Write ec ∨
      (migrate_superblock_action even odd proto).2 = .Erase ec) ∧ layoutEq proto ec := by
  cases odd with
  | Bad => exact Or.inl (by cases even <;> rfl)
  | EcErased x =>
    by_cases hx : x = proto.ecSet x.ec
    · exact Or.inl (by rw [migrate_odd_ecerased, if_pos hx])
    · exact Or.inr ⟨proto.ecSet (x.ec + 1),
        Or.inr (by rw [migrate_odd_ecerased, if_neg hx]), layoutEq_ecSet proto _⟩
  | EcData x v =>
    exact Or.inr ⟨proto.ecSet (x.ec + 1), Or.inr (by cases even <;> rfl),
      layoutEq_ecSet proto _⟩
  | Erased =>
    cases even with
    | EcErased y => exact Or.inr ⟨proto.ecSet y.ec, Or.inl rfl, layoutEq_ecSet proto _⟩
    | EcData y w => exact Or.inr ⟨proto.ecSet y.ec, Or.inl rfl, layoutEq_ecSet proto _⟩
    | Bad => exact Or.inr ⟨proto, Or.inl rfl, ⟨rfl, rfl, rfl⟩⟩
    | Erased => exact Or.inr ⟨proto, Or.inl rfl, ⟨rfl, rfl, rfl⟩⟩
    | RawVid w => exact Or.inr ⟨proto, Or.inl rfl, ⟨rfl, rfl, rfl⟩⟩
    | Garbage => exact Or.inr ⟨proto, Or.inl rfl, ⟨rfl, rfl, rfl⟩⟩
  | RawVid u =>
    cases even with
    | EcErased y => exact Or.inr ⟨proto.ecSet (y.ec + 1), Or.inr rfl, layoutEq_ecSet proto _⟩
    | EcData y w => exact Or.inr ⟨proto.ecSet (y.ec + 1), Or.inr rfl, layoutEq_ecSet proto _⟩
    | Bad => exact Or.inr ⟨proto, Or.inr rfl, ⟨rfl, rfl, rfl⟩⟩
    | Erased => exact Or.inr ⟨proto, Or.inr rfl, ⟨rfl, rfl, rfl⟩⟩
    | RawVid w => exact Or.inr ⟨proto, Or.inr rfl, ⟨rfl, rfl, rfl⟩⟩
    | Garbage => exact Or.inr ⟨proto, Or.inr rfl, ⟨rfl, rfl, rfl⟩⟩
  | Garbage =>
    cases even with
    | EcErased y => exact Or.inr ⟨proto.ecSet (y.ec + 1), Or.inr rfl, layoutEq_ecSet proto _⟩
    | EcData y w => exact Or.inr ⟨proto.ecSet (y.ec + 1), Or.inr rfl, layoutEq_ecSet proto _⟩
    | Bad => exact Or.inr ⟨proto, Or.inr rfl, ⟨rfl, rfl, rfl⟩⟩
    | Erased => exact Or.inr ⟨proto, Or.inr rfl, ⟨rfl, rfl, rfl⟩⟩
    | RawVid w => exact Or.inr ⟨proto, Or.inr rfl, ⟨rfl, rfl, rfl⟩⟩
    | Garbage => exact Or.inr ⟨proto, Or.inr rfl, ⟨rfl, rfl, rfl⟩⟩

theorem migrate_fst (even odd : BlockContent) (proto : Ec) :
    (migrate_superblock_action even odd proto).1 = erase_action even proto := rfl

theorem migrate_odd_ignore (even odd : BlockContent) (proto : Ec)
    (h : (migrate_superblock_action even odd proto).2 = .Ignore) : protoOk proto odd := by
  cases odd with
  | Bad => exact Or.inl rfl
  | EcErased x =>
    rw [migrate_odd_ecerased] at h
    by_cases hx : x = proto.ecSet x.ec
    · refine Or.inr ⟨x, rfl, ?_⟩
      rw [hx]
      exact layoutEq_ecSet proto _
    · rw [if_neg hx] at h
      exact absurd h (by simp)
  | EcData x v =>
    rw [show (migrate_superblock_action even (.EcData x v) proto).2 =
        .Erase (proto.ecSet (x.ec + 1)) from by cases even <;> rfl] at h
    exact absurd h (by simp)
  | Erased =>
    cases even <;> exact absurd h (by simp [migrate_superblock_action])
  | RawVid u =>
    cases even <;> exact absurd h (by simp [migrate_superblock_action])
  | Garbage =>
    cases even <;> exact absurd h (by simp [migrate_superblock_action])

theorem executeErase_ok (pageSize : Nat) (ec : Ec) (orc : List Bool) (c2 : BlockContent)
    (orc2 : List Bool) (h : executeErase pageSize ec orc = .ok (c2, orc2)) :
    c2 = .Bad ∨ c2 = .EcErased ec := by
  simp only [executeErase, consumeOrc] at h
  split at h
  · split at h
    · exact Or.inl (by cases h; rfl)
    · exact absurd h (by simp)
  · split at h
    · exact absurd h (by simp)
    · split at h
      · exact Or.inr (by cases h; rfl)
      · split at h
        · exact Or.inl (by cases h; rfl)
        · exact absurd h (by simp)

theorem execute_ok_cases (pageSize : Nat) (a : FormatAction) (c : BlockContent)
    (orc : List Bool) (c2 : BlockContent) (orc2 : List Bool)
    (h : FormatAction.execute pageSize a c orc = .ok (c2, orc2)) :
    (a = .Ignore ∧ c2 = c) ∨ c2 = .Bad ∨
    ∃ ec ec0, (a = .Write ec ∨ a = .Erase ec) ∧ c2 = .EcErased ec0 ∧
      (ec0 = ec ∨ ec0 = ec.inc_ec) := by
  cases a with
  | Ignore =>
    refine Or.inl ⟨rfl, ?_⟩
    simp only [FormatAction.execute] at h
    cases h
    rfl
  | Write ec =>
    simp only [FormatAction.execute, consumeOrc] at h
    split at h
    · exact absurd h (by simp)
    · split at h
      · refine Or.inr (Or.inr ⟨ec, ec, Or.inl rfl, ?_, Or.inl rfl⟩)
        cases h
        rfl
      · rcases executeErase_ok _ _ _ _ _ h with h2 | h2
        · exact Or.inr (Or.inl h2)
        · exact Or.inr (Or.inr ⟨ec, ec.inc_ec, Or.inl rfl, h2, Or.inr rfl⟩)
  | Erase ec =>
    simp only [FormatAction.execute] at h
    rcases executeErase_ok _ _ _ _ _ h with h2 | h2
    · exact Or.inr (Or.inl h2)
    · exact Or.inr (Or.inr ⟨ec, ec, Or.inr rfl, h2, Or.inl rfl⟩)

theorem getD_set_self {α : Type} (l : List α) (i : Nat) (c d : α) (h : i < l.length) :
    (l.set i c).getD i d = c := by
  simp [List.getD, List.getElem?_set, h]

theorem getD_set_ne {α : Type} (l : List α) (i j : Nat) (c d : α) (h : i ≠ j) :
    (l.set i c).getD j d = l.getD j d := by
  simp [List.getD, List.getElem?_set, h]

theorem runWork_invariant (pageSize : Nat) (proto : Ec) :
    ∀ (work : List (Nat × FormatAction)) (ebt : List BlockContent) (orc : List Bool)
      (ebt2 : List BlockContent) (orc2 : List Bool),
      (∀ p ∈ work, ∃ ec, (p.2 = .Write ec ∨ p.2 = .Erase ec) ∧ layoutEq proto ec) →
      (∀ i, i < ebt.length → (∀ a, (i, a) ∉ work) → protoOk proto (ebt.getD i .Bad)) →
      runWork pageSize work ebt orc = .ok (ebt2, orc2) →
      ebt2.length = ebt.length ∧ ∀ i, i < ebt2.length → protoOk proto (ebt2.getD i .Bad) := by
  intro work
  induction work with
  | nil =>
    intro ebt orc ebt2 orc2 _ hcover h
    cases h
    exact ⟨rfl, fun i hi => hcover i hi (fun a => List.not_mem_nil (i, a))⟩
  | cons q rest ih =>
    intro ebt orc ebt2 orc2 hwork hcover h
    obtain ⟨i, a⟩ := q
    simp only [runWork, consumeOrc] at h
    split at h
    · exact absurd h (by simp)
    · revert h
      cases hex : FormatAction.execute pageSize a (ebt.getD i .Bad) orc.tail with
      | error e => intro h; exact absurd h (by simp)
      | ok co =>
        obtain ⟨c, orc3⟩ := co
        intro h
        have hrun : runWork pageSize rest (ebt.set i c) orc3 = Except.ok (ebt2, orc2) := h
        by_cases hilen : i < ebt.length
        · have hcnew : protoOk proto c := by
            obtain ⟨ec, hae, hlay⟩ := hwork (i, a) (by simp)
            rcases execute_ok_cases _ _ _ _ _ _ hex with ⟨hig, _⟩ | hbad | ⟨ec1, ec0, hae1, hc, hec0⟩
            · rcases hae with h1 | h1 <;> rw [hig] at h1 <;> exact absurd h1 (by simp)
            · exact Or.inl hbad
            · refine Or.inr ⟨ec0, hc, ?_⟩
              have haea : a = .Write ec ∨ a = .Erase ec := hae
              have hec : ec1 = ec := by
                rcases haea with h1 | h1 <;> rcases hae1 with h2 | h2 <;>
                  rw [h1] at h2 <;> first
                  | (injection h2 with hh; exact hh.symm)
                  | exact absurd h2 (by simp)
              rcases hec0 with h2 | h2
              · rw [h2, hec]
                exact hlay
              · rw [h2, hec]
                exact layoutEq_inc proto ec hlay
          have := ih (ebt.set i c) orc3 ebt2 orc2
            (fun p hp => hwork p (List.mem_cons_of_mem _ hp))
            (fun j hj hnotin => by
              by_cases hij : j = i
              · subst hij
                rw [getD_set_self _ _ _ _ hilen]
                exact hcnew
              · rw [getD_set_ne _ _ _ _ _ (fun hh => hij hh.symm)]
                refine hcover j (by simpa using hj) ?_
                intro a2 hmem
                rcases List.mem_cons.mp hmem with hh | hh
                · exact hij (by cases hh; rfl)
                · exact hnotin a2 hh) hrun
          exact ⟨by rw [this.1]; simp, this.2⟩
        · -- i out of range: the set is a no-op
          have hset : ebt.set i c = ebt := List.set_eq_of_length_le (by omega)
          rw [hset] at hrun
          have := ih ebt orc3 ebt2 orc2
            (fun p hp => hwork p (List.mem_cons_of_mem _ hp))
            (fun j hj hnotin => by
              refine hcover j hj ?_
              intro a2 hmem
              rcases List.mem_cons.mp hmem with hh | hh
              · exact absurd (by cases hh; exact hj : i < ebt.length) (by omega)
              · exact hnotin a2 hh) hrun
          exact this

theorem mem_enum_getD {α : Type} (l : List α) (i : Nat) (d : α) (h : i < l.length) :
    (i, l.getD i d) ∈ l.enum := by
  rw [List.mem_enum_iff_getElem?]
  simp [List.getD, List.getElem?_eq_getElem h]

theorem enum_getD {α : Type} (l : List α) (i : Nat) (x d : α) (h : (i, x) ∈ l.enum) :
    l.getD i d = x := by
  rw [List.mem_enum_iff_getElem?] at h
  simp [List.getD, h]

theorem enum_lt {α : Type} (l : List α) (i : Nat) (x : α) (h : (i, x) ∈ l.enum) :
    i < l.length := by
  rw [List.mem_enum_iff_getElem?] at h
  exact (List.getElem?_eq_some.mp h).1

theorem buildWorkPlain_layout (ebt : List BlockContent) (proto : Ec) :
    ∀ p ∈ buildWorkPlain ebt proto,
      ∃ ec, (p.2 = .Write ec ∨ p.2 = .Erase ec) ∧ layoutEq proto ec := by
  intro p hp
  rw [buildWorkPlain, List.mem_filter] at hp
  obtain ⟨hmap, hni⟩ := hp
  obtain ⟨q, hq, hqp⟩ := List.mem_map.mp hmap
  rcases erase_action_layout q.2 proto with hig | ⟨ec, hae, hlay⟩
  · exfalso
    rw [← hqp] at hni
    simp [hig] at hni
  · refine ⟨ec, ?_, hlay⟩
    rw [← hqp]
    exact hae

theorem buildWorkPlain_cover (ebt : List BlockContent) (proto : Ec) :
    ∀ i, i < ebt.length → (∀ a, (i, a) ∉ buildWorkPlain ebt proto) →
      protoOk proto (ebt.getD i .Bad) := by
  intro i hi hnotin
  by_cases hig : erase_action (ebt.getD i .Bad) proto = .Ignore
  · exact erase_action_ignore _ _ hig
  · exfalso
    refine hnotin (erase_action (ebt.getD i .Bad) proto) ?_
    rw [buildWorkPlain, List.mem_filter]
    constructor
    · exact List.mem_map.mpr ⟨(i, ebt.getD i .Bad), mem_enum_getD ebt i .Bad hi, rfl⟩
    · simpa using hig

theorem buildWorkMig_fold_mem (ebt : List BlockContent) :
    ∀ (items f b : List (Nat × FormatAction)) (x : Nat × FormatAction),
      ((x ∈ (items.foldl (fun fb p =>
          if isVidPair ebt p.1 then (fb.1, fb.2 ++ [p]) else (p :: fb.1, fb.2)) (f, b)).1 ∨
        x ∈ (items.foldl (fun fb p =>
          if isVidPair ebt p.1 then (fb.1, fb.2 ++ [p]) else (p :: fb.1, fb.2)) (f, b)).2) ↔
       (x ∈ items ∨ x ∈ f ∨ x ∈ b)) := by
  intro items
  induction items with
  | nil =>
    intro f b x
    simp
  | cons y ys ih =>
    intro f b x
    simp only [List.foldl_cons]
    by_cases hy : isVidPair ebt y.1 = true
    · rw [if_pos hy]
      rw [ih f (b ++ [y]) x]
      simp only [List.mem_cons, List.mem_append, List.mem_singleton]
      tauto
    · rw [if_neg (by simpa using hy)]
      rw [ih (y :: f) b x]
      simp only [List.mem_cons]
      tauto

theorem mem_buildWorkMig_iff (ebt : List BlockContent) (proto : Ec) (x : Nat × FormatAction) :
    x ∈ buildWorkMig ebt proto ↔
      x ∈ ((migActions ebt proto).enum).filter (fun p => p.2 ≠ FormatAction.Ignore) := by
  rw [buildWorkMig]
  simp only [List.mem_append]
  rw [buildWorkMig_fold_mem ebt _ [] [] x]
  simp

theorem migActions_cons2 (a b : BlockContent) (rest : List BlockContent) (proto : Ec) :
    migActions (a :: b :: rest) proto =
      (migrate_superblock_action a b proto).1 :: (migrate_superblock_action a b proto).2 ::
        migActions rest proto := by
  simp [migActions, pairsOf]

theorem migActions_length (proto : Ec) :
    ∀ ebt : List BlockContent, (migActions ebt proto).length = 2 * (ebt.length / 2)
  | [] => rfl
  | [a] => by simp [migActions, pairsOf]
  | a :: b :: rest => by
    rw [migActions_cons2]
    simp only [List.length_cons, migActions_length proto rest]
    omega

theorem migActions_pair (proto : Ec) :
    ∀ (ebt : List BlockContent) (k : Nat), 2 * k + 1 < ebt.length →
      (migActions ebt proto).getD (2 * k) .Ignore =
        (migrate_superblock_action (ebt.getD (2 * k) .Bad) (ebt.getD (2 * k + 1) .Bad) proto).1 ∧
      (migActions ebt proto).getD (2 * k + 1) .Ignore =
        (migrate_superblock_action (ebt.getD (2 * k) .Bad) (ebt.getD (2 * k + 1) .Bad) proto).2
  | [], k, h => absurd h (by simp)
  | [a], k, h => by
    simp at h
  | a :: b :: rest, 0, h => by
    rw [migActions_cons2]
    exact ⟨rfl, rfl⟩
  | a :: b :: rest, k + 1, h => by
    have ih := migActions_pair proto rest k (by
      simp only [List.length_cons] at h
      omega)
    rw [migActions_cons2]
    have h2 : 2 * (k + 1) = 2 * k + 1 + 1 := by ring
    rw [h2]
    simp only [List.getD_cons_succ]
    exact ih

theorem buildWorkMig_layout (ebt : List BlockContent) (proto : Ec) :
    ∀ p ∈ buildWorkMig ebt proto,
      ∃ ec, (p.2 = .Write ec ∨ p.2 = .Erase ec) ∧ layoutEq proto ec := by
  intro p hp
  rw [mem_buildWorkMig_iff, List.mem_filter] at hp
  obtain ⟨henum, hni⟩ := hp
  have hni2 : p.2 ≠ FormatAction.Ignore := by simpa using hni
  have hgetD : (migActions ebt proto).getD p.1 .Ignore = p.2 := enum_getD _ _ _ _ henum
  have hlt : p.1 < (migActions ebt proto).length := enum_lt _ _ _ henum
  rw [migActions_length] at hlt
  obtain ⟨k, hk⟩ : ∃ k, p.1 = 2 * k ∨ p.1 = 2 * k + 1 :=
    ⟨p.1 / 2, by omega⟩
  have hpair := migActions_pair proto ebt k (by omega)
  rcases hk with hk | hk
  · rw [hk, hpair.1] at hgetD
    rw [migrate_fst] at hgetD
    rcases erase_action_layout (ebt.getD (2 * k) .Bad) proto with hig | ⟨ec, hae, hlay⟩
    · rw [hig] at hgetD
      exact absurd hgetD.symm hni2
    · exact ⟨ec, by rw [← hgetD]; exact hae, hlay⟩
  · rw [hk, hpair.2] at hgetD
    rcases migrate_odd_layout (ebt.getD (2 * k) .Bad) (ebt.getD (2 * k + 1) .Bad) proto with
      hig | ⟨ec, hae, hlay⟩
    · rw [hig] at hgetD
      exact absurd hgetD.symm hni2
    · exact ⟨ec, by rw [← hgetD]; exact hae, hlay⟩

theorem buildWorkMig_cover (ebt : List BlockContent) (proto : Ec)
    (hev : ebt.length % 2 = 0) :
    ∀ i, i < ebt.length → (∀ a, (i, a) ∉ buildWorkMig ebt proto) →
      protoOk proto (ebt.getD i .Bad) := by
  intro i hi hnotin
  have hmlen : (migActions ebt proto).length = ebt.length := by
    rw [migActions_length]
    omega
  obtain ⟨k, hk⟩ : ∃ k, i = 2 * k ∨ i = 2 * k + 1 := ⟨i / 2, by omega⟩
  have hkb : 2 * k + 1 < ebt.length := by omega
  have hpair := migActions_pair proto ebt k hkb
  by_cases hig : (migActions ebt proto).getD i .Ignore = .Ignore
  · rcases hk with hk | hk
    · subst hk
      rw [hpair.1, migrate_fst] at hig
      exact erase_action_ignore _ _ hig
    · subst hk
      rw [hpair.2] at hig
      exact migrate_odd_ignore _ _ _ hig
  · exfalso
    refine hnotin ((migActions ebt proto).getD i .Ignore) ?_
    rw [mem_buildWorkMig_iff, List.mem_filter]
    constructor
    · exact mem_enum_getD (migActions ebt proto) i FormatAction.Ignore (by omega)
    · simpa using hig

theorem protoOk_spec (proto : Ec) (c : BlockContent) (h : protoOk proto c) :
    (∀ v, c ≠ .RawVid v) ∧ c ≠ .Garbage ∧
      (c ≠ .Bad → ∃ e, c = .EcErased e ∧ e.vid_hdr_offset = proto.vid_hdr_offset ∧
        e.data_offset = proto.data_offset ∧ e.image_seq = proto.image_seq) := by
  rcases h with h | ⟨e, hc, h1, h2, h3⟩
  · subst h
    exact ⟨fun v => by simp, by simp, fun hb => absurd rfl hb⟩
  · subst hc
    exact ⟨fun v => by simp, by simp, fun _ => ⟨e, rfl, h1, h2, h3⟩⟩

theorem mem_getD_of_mem {α : Type} (l : List α) (c d : α) (h : c ∈ l) :
    ∃ i, i < l.length ∧ l.getD i d = c := by
  obtain ⟨i, hi, hg⟩ := List.getElem_of_mem h
  exact ⟨i, hi, by simp [List.getD, List.getElem?_eq_getElem hi, hg]⟩

/-- C1 (amended): for every EBT and oracle, if `format` returns
successfully and the block count is even (every block belongs to a
superblock pair) — or no migration is needed — then no resulting EBT entry
is `RawVid` or `Garbage`, and every entry that is not `Bad` is `EcErased`
with an EC header whose `vid_hdr_offset`, `data_offset` and `image_seq`
equal those of the computed prototype EC header. -/
theorem C1_amended_format_invariant (pageSize : Nat) (ebt : List BlockContent)
    (orc : List Bool) (ebt2 : List BlockContent)
    (hpar : ebt.length % 2 = 0 ∨ needs_migration ebt = false)
    (h : format pageSize ebt orc = .ok ebt2) :
    ∀ c ∈ ebt2, (∀ v, c ≠ .RawVid v) ∧ c ≠ .Garbage ∧
      (c ≠ .Bad → ∃ e, c = .EcErased e ∧
        e.vid_hdr_offset = (compute_prototype pageSize ebt).vid_hdr_offset ∧
        e.data_offset = (compute_prototype pageSize ebt).data_offset ∧
        e.image_seq = (compute_prototype pageSize ebt).image_seq) := by
  intro c hc
  simp only [format] at h
  revert h
  cases hrw : runWork pageSize
      (if needs_migration ebt = true then buildWorkMig ebt (compute_prototype pageSize ebt)
       else buildWorkPlain ebt (compute_prototype pageSize ebt)) ebt orc with
  | error e =>
    intro h
    exact absurd h (by simp [Except.map])
  | ok pr =>
    intro h
    obtain ⟨e2, o2⟩ := pr
    have he2 : e2 = ebt2 := by
      simpa [Except.map] using h
    subst he2
    by_cases hmig : needs_migration ebt = true
    · rw [if_pos hmig] at hrw
      have hev : ebt.length % 2 = 0 := by
        rcases hpar with hp | hp
        · exact hp
        · rw [hmig] at hp
          exact absurd hp (by simp)
      have hinv := runWork_invariant pageSize (compute_prototype pageSize ebt)
        (buildWorkMig ebt (compute_prototype pageSize ebt)) ebt orc e2 o2
        (buildWorkMig_layout ebt _) (buildWorkMig_cover ebt _ hev) hrw
      obtain ⟨i, hi, hgd⟩ := mem_getD_of_mem e2 c .Bad hc
      have hpo := hinv.2 i hi
      rw [hgd] at hpo
      exact protoOk_spec _ c hpo
    · rw [if_neg hmig] at hrw
      have hinv := runWork_invariant pageSize (compute_prototype pageSize ebt)
        (buildWorkPlain ebt (compute_prototype pageSize ebt)) ebt orc e2 o2
        (buildWorkPlain_layout ebt _) (buildWorkPlain_cover ebt _) hrw
      obtain ⟨i, hi, hgd⟩ := mem_getD_of_mem e2 c .Bad hc
      have hpo := hinv.2 i hi
      rw [hgd] at hpo
      exact protoOk_spec _ c hpo

/-- Witness for C1 (amended) at a concrete run: a two-block erased EBT
formats successfully into prototype-bearing `EcErased` entries. -/
theorem C1_amended_format_invariant_witness :
    (([BlockContent.Erased, .Erased] : List BlockContent).length % 2 = 0 ∨
      needs_migration [BlockContent.Erased, .Erased] = false) ∧
    format 128 [BlockContent.Erased, .Erased] [] =
      .ok [.EcErased ⟨1, 128, 256, 0⟩, .EcErased ⟨1, 128, 256, 0⟩] ∧
    (∀ c ∈ [BlockContent.EcErased ⟨1, 128, 256, 0⟩, .EcErased ⟨1, 128, 256, 0⟩],
      (∀ v, c ≠ .RawVid v) ∧ c ≠ .Garbage ∧
      (c ≠ .Bad → ∃ e, c = .EcErased e ∧
        e.vid_hdr_offset =
          (compute_prototype 128 [BlockContent.Erased, .Erased]).vid_hdr_offset ∧
        e.data_offset = (compute_prototype 128 [BlockContent.Erased, .Erased]).data_offset ∧
        e.image_seq = (compute_prototype 128 [BlockContent.Erased, .Erased]).image_seq)) :=
  ⟨Or.inl rfl, by decide,
    C1_amended_format_invariant 128 [BlockContent.Erased, .Erased] [] _ (Or.inl rfl) (by decide)⟩

theorem c1CexBlock_page0 :
    (SimBlock.mk (Vid.encode64 c5Vid) 4 64 false).pageBytes 0 = Vid.encode64 c5Vid := by
  have hl : (Vid.encode64 c5Vid).length = 64 := Vid.length_encode64_vid _
  have ht : ((Vid.encode64 c5Vid).take 64) = Vid.encode64 c5Vid :=
    List.take_of_length_le (le_of_eq hl)
  simp [SimBlock.pageBytes, ht, hl]

/-- C1 counterexample: a one-block NAND whose single block scans as
`RawVid` needs migration, but the migration plan pairs blocks with
`chunks_exact(2)`, which drops the trailing block of an odd-length EBT —
so `format` succeeds while the block stays `RawVid`.  This refutes the
claim for devices with an odd number of blocks. -/
theorem C1_counterexample :
    scan_blocks ⟨[⟨Vid.encode64 c5Vid, 4, 64, false⟩], 4, 64⟩ = [BlockContent.RawVid c5Vid] ∧
    format 64 [BlockContent.RawVid c5Vid] [] = .ok [BlockContent.RawVid c5Vid] := by
  constructor
  · have hdec : Vid.decode ((SimBlock.mk (Vid.encode64 c5Vid) 4 64 false).pageBytes 0) =
        some c5Vid := by
      rw [c1CexBlock_page0, Vid.decode_encode64_vid]
      decide
    have hsp : scanPage (SimBlock.mk (Vid.encode64 c5Vid) 4 64 false) none 0 =
        Except.error (.RawVid c5Vid) := by
      simp [scanPage, hdec]
    have hrange : List.range' 0
        (min (SimBlock.mk (Vid.encode64 c5Vid) 4 64 false).page_count (0 + 4) - 0) =
        [0, 1, 2, 3] := by decide
    have hn : ((SimBlock.mk (Vid.encode64 c5Vid) 4 64 false).page_count + 3) / 4 = 0 + 1 := by
      decide
    have hscan : BlockContent.scan_block (SimBlock.mk (Vid.encode64 c5Vid) 4 64 false) =
        .RawVid c5Vid := by
      rw [BlockContent.scan_block, hn, scanGo_succ_none, hrange, scanChunk_cons, hsp]
    simp [scan_blocks, hscan]
  · decide

/-! ## Ubinizer (`src/ubi/ubinize.rs`)

For the sequence-number claim the relevant structure is the `Ubinizer`
driver loop (`next_block`/`next_volume`): volumes are modelled by the
sequence of `Vid` headers their `VolumeData::next_block` yields (payload
bytes and the volume-table record bookkeeping do not influence sequence
numbers).  The synthesized layout volume is the final volume, yielding its
fixed `Vid`s. -/

def UBI_LAYOUT_VOLUME_ID : Nat := 0x7FFFEFFF

/-- The two `Vid` headers the synthesized layout volume yields
(`LayoutVolumeData::next_block`): volume ID `0x7FFFEFFF`, type Dynamic,
compat 5, `lnum` 0 then 1. -/
def layoutVolumeVids : List Vid :=
  [⟨.Dynamic, false, 5, UBI_LAYOUT_VOLUME_ID, 0, 0, 0, 0, 0, 0⟩,
   ⟨.Dynamic, false, 5, UBI_LAYOUT_VOLUME_ID, 1, 0, 0, 0, 0, 0⟩]

/-- The `Ubinizer` state relevant to sequence numbers: the volumes not yet
started (each as its yielded `Vid` sequence), the pending layout volume,
the global `sqnum` counter, and the volume currently being consumed. -/
structure UbState where
  volumes : List (List Vid)
  layout : Option (List Vid)
  sqnum : Nat
  current : Option (List Vid)
deriving DecidableEq

/-- `Ubinizer::new`: `sqnum` starts at 0, no current volume, the layout
volume pending. -/
def Ubinizer.new (vols : List (List Vid)) (layoutVids : List Vid) : UbState :=
  ⟨vols, some layoutVids, 0, none⟩

/-- `Ubinizer::next_volume`: pull the next volume, falling back to the
layout volume once the caller-supplied volumes are exhausted. -/
def nextVolume (s : UbState) : UbState :=
  match s.volumes with
  | v :: rest => { s with volumes := rest, current := some v }
  | [] =>
    match s.layout with
    | some l => { s with layout := none, current := some l }
    | none => { s with current := none }

/-- `Ubinizer::next_block`: cycle volumes until one yields a block, then
bump the global `sqnum` and stamp it into the yielded `Vid`
(`vid.sqnum(self.sqnum)`).  The fuel bounds the number of volumes cycled
in one call. -/
def nextBlock : Nat → UbState → Option Vid × UbState
  | 0, s => (none, s)
  | fuel + 1, s =>
    let s := if s.current = none then nextVolume s else s
    match s.current with
    | none => (none, s)
    | some [] => nextBlock fuel { s with current := none }
    | some (v :: vs) =>
      (some (v.sqnumSet (s.sqnum + 1)), { s with sqnum := s.sqnum + 1, current := some vs })

/-- Run the ubinizer to exhaustion (up to `fuel` yielded blocks),
collecting the stream of stamped `Vid` headers in yield order. -/
def runUb : Nat → UbState → List Vid
  | 0, _ => []
  | fuel + 1, s =>
    match nextBlock (s.volumes.length + 2) s with
    | (none, _) => []
    | (some v, s2) => v :: runUb fuel s2

theorem nextBlock_sqnum (fuel : Nat) :
    ∀ (s : UbState) (v : Vid) (s2 : UbState), nextBlock fuel s = (some v, s2) →
      v.sqnum = s.sqnum + 1 ∧ s2.sqnum = s.sqnum + 1 := by
  induction fuel with
  | zero =>
    intro s v s2 h
    simp [nextBlock] at h
  | succ fuel ih =>
    intro s v s2 h
    rw [nextBlock] at h
    revert h
    cases hcur : (if s.current = none then nextVolume s else s).current with
    | none =>
      intro h
      simp at h
    | some l =>
      cases l with
      | nil =>
        intro h
        have := ih _ _ _ h
        have hsq : (if s.current = none then nextVolume s else s).sqnum = s.sqnum := by
          split
          · rw [nextVolume]
            cases hv : s.volumes with
            | cons a rest => rfl
            | nil =>
              cases s.layout <;> rfl
          · rfl
        rw [hsq] at this
        exact this
      | cons v0 vs =>
        intro h
        have hsq : (if s.current = none then nextVolume s else s).sqnum = s.sqnum := by
          split
          · rw [nextVolume]
            cases hv : s.volumes with
            | cons a rest => rfl
            | nil =>
              cases s.layout <;> rfl
          · rfl
        cases h
        rw [hsq]
        exact ⟨rfl, rfl⟩

theorem runUb_sqnum_map (fuel : Nat) : ∀ s : UbState,
    (runUb fuel s).map Vid.sqnum = List.range' (s.sqnum + 1) (runUb fuel s).length := by
  induction fuel with
  | zero =>
    intro s
    simp [runUb]
  | succ fuel ih =>
    intro s
    rw [runUb]
    rcases hnb : nextBlock (s.volumes.length + 2) s with ⟨ov, s2⟩
    cases ov with
    | none => simp
    | some v =>
      obtain ⟨hv, hs2⟩ := nextBlock_sqnum _ _ _ _ hnb
      simp only [List.map_cons, List.length_cons, ih s2, hs2, hv]
      rfl

theorem trace_sqnum_getD (trace : List Vid)
    (hmap : trace.map Vid.sqnum = List.range' 1 trace.length) (k : Nat)
    (hk : k < trace.length) : (trace.getD k default).sqnum = 1 + k := by
  have hk2 : k < (trace.map Vid.sqnum).length := by simpa using hk
  have h2 := List.getElem_of_eq hmap hk2
  rw [List.getElem_map] at h2
  rw [List.getElem_range'] at h2
  have h3 : trace.getD k default = trace.get ⟨k, hk⟩ := by
    simp [List.getD, List.getElem?_eq_getElem hk]
  have h4 : (trace.get ⟨k, hk⟩).sqnum = 1 + 1 * k := h2
  rw [h3, h4]
  ring

/-- C7: for every collection of volumes (each modelled by the `Vid`
sequence it yields) and pending layout volume, the stream of `Vid`s
yielded by successive `Ubinizer::next_block` calls carries sequence
numbers `1, 2, 3, …` — starting at 1 and increasing by 1 per block — and
is therefore strictly increasing in yield (write) order. -/
theorem C7_sqnum_monotonic (vols : List (List Vid)) (layoutVids : List Vid) (fuel : Nat) :
    (runUb fuel (Ubinizer.new vols layoutVids)).map Vid.sqnum =
      List.range' 1 (runUb fuel (Ubinizer.new vols layoutVids)).length ∧
    ∀ i j, i < j → j < (runUb fuel (Ubinizer.new vols layoutVids)).length →
      ((runUb fuel (Ubinizer.new vols layoutVids)).getD i default).sqnum <
        ((runUb fuel (Ubinizer.new vols layoutVids)).getD j default).sqnum := by
  have hmap := runUb_sqnum_map fuel (Ubinizer.new vols layoutVids)
  refine ⟨hmap, ?_⟩
  intro i j hij hj
  rw [trace_sqnum_getD _ hmap i (by omega), trace_sqnum_getD _ hmap j hj]
  omega

/-- Witness for C7 at a concrete run: two volumes yielding two and one
blocks plus the layout volume produce sequence numbers `[1, 2, 3, 4, 5]`,
and the first yielded block's sequence number is below the second's. -/
theorem C7_sqnum_monotonic_witness :
    (runUb 10 (Ubinizer.new [[c5Vid, c5Vid], [c5Vid]] layoutVolumeVids)).map Vid.sqnum =
      List.range' 1
        (runUb 10 (Ubinizer.new [[c5Vid, c5Vid], [c5Vid]] layoutVolumeVids)).length ∧
    (0 : Nat) < 1 ∧
    1 < (runUb 10 (Ubinizer.new [[c5Vid, c5Vid], [c5Vid]] layoutVolumeVids)).length ∧
    ((runUb 10 (Ubinizer.new [[c5Vid, c5Vid], [c5Vid]] layoutVolumeVids)).getD 0
        default).sqnum <
      ((runUb 10 (Ubinizer.new [[c5Vid, c5Vid], [c5Vid]] layoutVolumeVids)).getD 1
        default).sqnum :=
  ⟨(C7_sqnum_monotonic [[c5Vid, c5Vid], [c5Vid]] layoutVolumeVids 10).1, by decide, by decide,
    (C7_sqnum_monotonic [[c5Vid, c5Vid], [c5Vid]] layoutVolumeVids 10).2 0 1 (by decide)
      (by decide)⟩

/-! ## Raw image writer (`src/format/raw.rs`)

The chunked reads of `check_raw_block` are collapsed to per-page reads
(simulator reads are pure and never fail), preserving the loop's
observable behaviour.  `RawStats` counts the NAND program and erase
operations issued, to express the idempotence claim.  On a failed
`program`, the simulator block's partially written pages are immaterial:
the caller's next action is always an `erase`, which clears the written
prefix either way, so the model returns the pre-program block. -/

structure RawStats where
  programs : Nat
  erases : Nat
deriving DecidableEq

def addStats (a b : RawStats) : RawStats := ⟨a.programs + b.programs, a.erases + b.erases⟩

instance : Inhabited SimBlock := ⟨⟨[], 0, 0, false⟩⟩

/-- The per-page loop of `check_raw_block`: compare the next page against
the remaining input until the input runs out (`Some page`), switching to
erase-enforcement after the first mismatch; a non-erased page after a
mismatch, or input outliving the block, yields `None` (needs erase). -/
def checkGo (b : SimBlock) : Nat → Nat → List Nat → Option Nat → Option Nat
  | fuel, page, data, upto =>
    if upto = none ∧ data = [] then some page
    else
      match fuel with
      | 0 => upto
      | fuel + 1 =>
        let pb := b.pageBytes page
        let du :=
          if upto = none then
            let cmp_len := min pb.length data.length
            if pb.take cmp_len = data.take cmp_len then (data.drop cmp_len, (none : Option Nat))
            else (data, some page)
          else (data, upto)
        if du.2 ≠ none ∧ ¬(pb.all (· = 0xFF) = true) then none
        else checkGo b fuel (page + 1) du.1 du.2

/-- `check_raw_block` from `src/format/raw.rs`. -/
def check_raw_block (b : SimBlock) (data : List Nat) : Option Nat :=
  checkGo b b.page_count 0 data none

/-- Pad a buffer with `0xFF` up to the next multiple of the page size
(the padding step of `update_raw_block`). -/
def padTo (pageSize : Nat) (data : List Nat) : List Nat :=
  let dl := data.length + pageSize - 1
  let dl := dl - dl % pageSize
  data ++ List.replicate (dl - data.length) 0xFF

/-- `update_raw_block` from `src/format/raw.rs`: erase if no resume point,
then program the (full, unsliced) padded buffer at the resume page.
Returns success, the resulting block, and the operations performed. -/
def update_raw_block (b : SimBlock) (data : List Nat) : Bool × SimBlock × RawStats :=
  match check_raw_block b data with
  | none =>
    let b2 := b.erase
    match b2.program 0 (padTo b2.page_size data) with
    | .ok b3 => (true, b3, ⟨1, 1⟩)
    | .error _ => (false, b2, ⟨1, 1⟩)
  | some x =>
    match b.program x (padTo b.page_size data) with
    | .ok b3 => (true, b3, ⟨1, 0⟩)
    | .error _ => (false, b, ⟨1, 0⟩)

/-- The 5-attempt retry loop of `write_raw_image`: each failed
`update_raw_block` is followed by an erase before the next attempt. -/
def attemptGo : Nat → SimBlock → List Nat → RawStats → Bool × SimBlock × RawStats
  | 0, blk, _, st => (false, blk, st)
  | k + 1, blk, data, st =>
    match update_raw_block blk data with
    | (true, blk2, st2) => (true, blk2, addStats st st2)
    | (false, blk2, st2) => attemptGo k blk2.erase data (addStats (addStats st st2) ⟨0, 1⟩)

/-- The block-finding loop of `write_raw_image`: skip (or fail on) bad
blocks, give 5 attempts per block, then mark the block bad and move on. -/
def findWrite (skip_bad : Bool) :
    Nat → SimNand → List Nat → Nat → RawStats → Except Unit (SimNand × Nat × RawStats)
  | 0, _, _, _, _ => .error ()
  | fuel + 1, n, data, bi, st =>
    if bi < n.blocks.length then
      let blk := n.blocks.getD bi default
      if blk.marked_bad then
        if skip_bad then findWrite skip_bad fuel n data (bi + 1) st else .error ()
      else
        match attemptGo 5 blk data st with
        | (true, blk2, st2) => .ok ({ n with blocks := n.blocks.set bi blk2 }, bi + 1, st2)
        | (false, blk3, st2) =>
          let n2 := { n with blocks := n.blocks.set bi blk3.mark_bad }
          if skip_bad then findWrite skip_bad fuel n2 data (bi + 1) st2 else .error ()
    else .error ()

/-- The outer per-input-block loop of `write_raw_image`. -/
def wriGo (skip_bad : Bool) (block_size : Nat) :
    Nat → SimNand → List Nat → Nat → RawStats → (Except Unit SimNand) × RawStats
  | 0, _, _, _, st => (.error (), st)
  | fuel + 1, n, img, bi, st =>
    let data := img.take block_size
    if data = [] then (.ok n, st)
    else
      match findWrite skip_bad (n.blocks.length + 1) n data bi st with
      | .error _ => (.error (), st)
      | .ok (n2, bi2, st2) => wriGo skip_bad block_size fuel n2 (img.drop block_size) bi2 st2

/-- `write_raw_image` from `src/format/raw.rs`, instrumented with
operation counts; `fuel` bounds the number of input blocks consumed. -/
def write_raw_image (fuel : Nat) (nand : SimNand) (image : List Nat) (skip_bad : Bool) :
    (Except Unit SimNand) × RawStats :=
  wriGo skip_bad (nand.pages_per_block * nand.bytes_per_page) fuel nand image 0 ⟨0, 0⟩

/-- C2 (code bug): `write_raw_image`'s own documentation promises "This
operation is idempotent; if the image is already written, no erase/writes
will occur", but a second consecutive run is not a no-op.  On a fully
matching block `check_raw_block` returns the full page count, and
`update_raw_block` then calls `block.program(start_page, data)` with the
full *unsliced* buffer, so the program runs off the end of the block
(or duplicates data into later pages), fails, and the retry path erases
and reprograms the block.  Concretely, on a 1-block `{1, 4, 2}` NAND with
a full-block `0xAA` image: the first run performs 1 program and 0 erases,
and the second run — which the claim says performs no NAND program or
erase operations — performs 2 programs and 1 erase. -/
theorem C2_code_bug_second_run_writes :
    write_raw_image 4 ⟨[⟨[], 4, 2, false⟩], 4, 2⟩ (List.replicate 8 0xAA) false =
      (.ok ⟨[⟨List.replicate 8 0xAA, 4, 2, false⟩], 4, 2⟩, ⟨1, 0⟩) ∧
    write_raw_image 4 ⟨[⟨List.replicate 8 0xAA, 4, 2, false⟩], 4, 2⟩
        (List.replicate 8 0xAA) false =
      (.ok ⟨[⟨List.replicate 8 0xAA, 4, 2, false⟩], 4, 2⟩, ⟨2, 1⟩) ∧
    check_raw_block ⟨List.replicate 8 0xAA, 4, 2, false⟩ (List.replicate 8 0xAA) = some 4 ∧
    (update_raw_block ⟨List.replicate 8 0xAA, 4, 2, false⟩ (List.replicate 8 0xAA)).1 = false :=
  ⟨by decide, by decide, by decide, by decide⟩

/-! ## EROFS size probe (`src/image.rs`) -/

def EROFS_SUPER_MAGIC_V1 : Nat := 0xE0F5E1E2

/-- A little-endian u32 read at an offset of a byte list
(`u32::from_le_bytes` over a 4-byte slice). -/
def leU32 (l : List Nat) (off : Nat) : Nat :=
  l.getD off 0 % 256 + l.getD (off + 1) 0 % 256 * 256 + l.getD (off + 2) 0 % 256 * 65536 +
    l.getD (off + 3) 0 % 256 * 16777216

/-- `erofs_size` from `src/image.rs`: read the 3072-byte superblock region
at offset 1024, require the magic, check the CRC-32C over the region with
the checksum field zeroed, and return `u64(blocks) << blkszbits` via
`checked_shl` — which fails exactly when the shift amount is ≥ 64 and
otherwise truncates to 64 bits. -/
def erofs_size (img : List Nat) : Except Unit Nat :=
  if img.length < 4096 then .error ()
  else
    let sb := (img.drop 1024).take 3072
    if leU32 sb 0 ≠ EROFS_SUPER_MAGIC_V1 then .error ()
    else
      let cksum := leU32 sb 4
      let sbz := sb.take 4 ++ [0, 0, 0, 0] ++ sb.drop 8
      if cksum ≠ crc32c_erofs sbz then .error ()
      else
        let blocks := leU32 sb 36
        let blkszbits := sb.getD 12 0
        if 64 ≤ blkszbits then .error ()
        else .ok (blocks * 2 ^ blkszbits % 2 ^ 64)

/-- The 4 little-endian bytes of a u32 value. -/
def leBytes4 (v : Nat) : List Nat :=
  [v % 256, v / 256 % 256, v / 65536 % 256, v / 16777216 % 256]

/-- Superblock bytes 8..3071 of the C3 input: `blkszbits = 63` at offset
12, `blocks = 2` (LE) at offset 36, zeros elsewhere. -/
def c3Rest : List Nat :=
  [0, 0, 0, 0] ++ [63] ++
    [0, 0, 0, 0, 0, 0, 0, 0, 0, 0, 0, 0, 0, 0, 0, 0, 0, 0, 0, 0, 0, 0, 0] ++
    [2, 0, 0, 0] ++ List.replicate 3032 0

def c3MagicBytes : List Nat := [0xE2, 0xE1, 0xF5, 0xE0]

/-- The C3 superblock with the checksum field zeroed. -/
def c3Sb0 : List Nat := c3MagicBytes ++ ([0, 0, 0, 0] ++ c3Rest)

/-- The checksum the probe computes for the C3 superblock. -/
def c3K : Nat := crc32c_erofs c3Sb0

/-- The C3 superblock: magic, the correct stored checksum, then `c3Rest`. -/
def c3Sb : List Nat := c3MagicBytes ++ (leBytes4 c3K ++ c3Rest)

/-- The C3 input image: 1024 leading bytes, then the superblock. -/
def c3Img : List Nat := List.replicate 1024 0 ++ c3Sb

theorem c3Rest_length : c3Rest.length = 3064 := by
  rw [c3Rest]
  simp only [List.length_append, List.length_replicate, List.length_cons, List.length_nil]

theorem c3Sb_length : c3Sb.length = 3072 := by
  simp [c3Sb, c3MagicBytes, leBytes4, c3Rest_length]

theorem c3Img_sb : (c3Img.drop 1024).take 3072 = c3Sb := by
  have hd : c3Img.drop 1024 = c3Sb := by
    rw [c3Img]
    exact List.drop_left' (by simp)
  rw [hd]
  exact List.take_of_length_le (le_of_eq c3Sb_length)

theorem c3K_lt : c3K < 2 ^ 32 := crc32_run_lt _ _ (by norm_num)

theorem c3_magic : leU32 c3Sb 0 = EROFS_SUPER_MAGIC_V1 := by decide

theorem c3_blkszbits : c3Sb.getD 12 0 = 63 := by decide

theorem c3_blocks : leU32 c3Sb 36 = 2 := by decide

theorem c3Sb_drop4 : c3Sb.drop 4 = leBytes4 c3K ++ c3Rest := by
  rw [c3Sb]
  exact List.drop_left' (by simp [c3MagicBytes])

theorem c3Sb_getD_add4 (i : Nat) (h : i < 4) :
    c3Sb.getD (4 + i) 0 = (leBytes4 c3K).getD i 0 := by
  have h1 : c3Sb.getD (4 + i) 0 = (c3Sb.drop 4).getD i 0 := by
    simp [List.getD, List.getElem?_drop]
  rw [h1, c3Sb_drop4]
  exact List.getD_append _ _ _ _ (by simpa [leBytes4] using h)

theorem leBytes4_getD0 (v : Nat) : (leBytes4 v).getD 0 0 = v % 256 := rfl

theorem leBytes4_getD1 (v : Nat) : (leBytes4 v).getD 1 0 = v / 256 % 256 := rfl

theorem leBytes4_getD2 (v : Nat) : (leBytes4 v).getD 2 0 = v / 65536 % 256 := rfl

theorem leBytes4_getD3 (v : Nat) : (leBytes4 v).getD 3 0 = v / 16777216 % 256 := rfl

theorem c3_h4 : c3Sb.getD 4 0 = c3K % 256 := by
  have h := c3Sb_getD_add4 0 (by norm_num)
  rw [leBytes4_getD0] at h
  exact h

theorem c3_h5 : c3Sb.getD 5 0 = c3K / 256 % 256 := by
  have h := c3Sb_getD_add4 1 (by norm_num)
  rw [leBytes4_getD1] at h
  exact h

theorem c3_h6 : c3Sb.getD 6 0 = c3K / 65536 % 256 := by
  have h := c3Sb_getD_add4 2 (by norm_num)
  rw [leBytes4_getD2] at h
  exact h

theorem c3_h7 : c3Sb.getD 7 0 = c3K / 16777216 % 256 := by
  have h := c3Sb_getD_add4 3 (by norm_num)
  rw [leBytes4_getD3] at h
  exact h

theorem c3_cksum : leU32 c3Sb 4 = c3K := by
  have hK := c3K_lt
  rw [leU32]
  rw [show (4 : Nat) + 1 = 5 from rfl, show (4 : Nat) + 2 = 6 from rfl,
    show (4 : Nat) + 3 = 7 from rfl, c3_h4, c3_h5, c3_h6, c3_h7]
  have h232 : (2 : Nat) ^ 32 = 4294967296 := by norm_num
  rw [h232] at hK
  omega

theorem c3_sbz : c3Sb.take 4 ++ [0, 0, 0, 0] ++ c3Sb.drop 8 = c3Sb0 := by
  have ht : c3Sb.take 4 = c3MagicBytes := by
    rw [c3Sb]
    exact List.take_left' (by simp [c3MagicBytes])
  have hd8 : c3Sb.drop 8 = c3Rest := by
    have h1 : c3Sb.drop 8 = (c3Sb.drop 4).drop 4 := by
      rw [List.drop_drop]
    rw [h1, c3Sb_drop4]
    exact List.drop_left' (by simp [leBytes4])
  rw [ht, hd8, c3Sb0]
  simp

theorem c3Img_length : c3Img.length = 4096 := by
  simp [c3Img, c3Sb_length]

/-- C3 counterexample: an input whose superblock carries the EROFS magic
and a correct CRC-32C checksum, with `blocks = 2` and `blkszbits = 63`.
The shift `2 << 63` mathematically overflows a u64 (`2 * 2^63 = 2^64`),
yet `erofs_size` returns `Ok(0)` — `checked_shl` only fails for shift
amounts ≥ 64 and silently truncates the result otherwise, so no error is
returned. -/
theorem C3_counterexample :
    leU32 ((c3Img.drop 1024).take 3072) 0 = EROFS_SUPER_MAGIC_V1 ∧
    leU32 ((c3Img.drop 1024).take 3072) 4 =
      crc32c_erofs (((c3Img.drop 1024).take 3072).take 4 ++ [0, 0, 0, 0] ++
        ((c3Img.drop 1024).take 3072).drop 8) ∧
    2 ^ 64 ≤ leU32 ((c3Img.drop 1024).take 3072) 36 *
      2 ^ (((c3Img.drop 1024).take 3072).getD 12 0) ∧
    erofs_size c3Img = .ok 0 := by
  have hcrc : leU32 c3Sb 4 = crc32c_erofs (c3Sb.take 4 ++ [0, 0, 0, 0] ++ c3Sb.drop 8) := by
    rw [c3_cksum, c3_sbz, c3K]
  refine ⟨by rw [c3Img_sb]; exact c3_magic, by rw [c3Img_sb]; exact hcrc, ?_, ?_⟩
  · rw [c3Img_sb, c3_blocks, c3_blkszbits]
    norm_num
  · simp only [erofs_size, c3Img_sb]
    rw [if_neg (by rw [c3Img_length]; omega), if_neg (not_ne_iff.mpr c3_magic),
      if_neg (not_ne_iff.mpr hcrc), if_neg (by rw [c3_blkszbits]; omega)]
    rw [c3_blocks, c3_blkszbits]
    norm_num

/-- C3 (amended): for every input whose superblock at offset 1024 carries
the magic `0xE0F5E1E2` and a stored CRC-32C checksum equal to the one
computed over the region with the checksum field zeroed, `erofs_size`
returns `(u64(blocks) << blkszbits) mod 2^64` when `blkszbits < 64`, and
returns an error exactly when `blkszbits ≥ 64` (the `checked_shl` shift
amount is at least the bit width); a shift whose mathematical value
overflows u64 with `blkszbits < 64` yields the truncated value, not an
error. -/
theorem C3_amended_erofs_size (img : List Nat) (hlen : 4096 ≤ img.length)
    (hmagic : leU32 ((img.drop 1024).take 3072) 0 = EROFS_SUPER_MAGIC_V1)
    (hcrc : leU32 ((img.drop 1024).take 3072) 4 =
      crc32c_erofs (((img.drop 1024).take 3072).take 4 ++ [0, 0, 0, 0] ++
        ((img.drop 1024).take 3072).drop 8)) :
    erofs_size img =
      if 64 ≤ ((img.drop 1024).take 3072).getD 12 0 then .error ()
      else .ok (leU32 ((img.drop 1024).take 3072) 36 *
        2 ^ (((img.drop 1024).take 3072).getD 12 0) % 2 ^ 64) := by
  simp only [erofs_size]
  rw [if_neg (by omega), if_neg (not_ne_iff.mpr hmagic), if_neg (not_ne_iff.mpr hcrc)]

/-- Witness for C3 (amended) at the concrete input `c3Img`. -/
theorem C3_amended_erofs_size_witness :
    4096 ≤ c3Img.length ∧
    leU32 ((c3Img.drop 1024).take 3072) 0 = EROFS_SUPER_MAGIC_V1 ∧
    erofs_size c3Img =
      if 64 ≤ ((c3Img.drop 1024).take 3072).getD 12 0 then .error ()
      else .ok (leU32 ((c3Img.drop 1024).take 3072) 36 *
        2 ^ (((c3Img.drop 1024).take 3072).getD 12 0) % 2 ^ 64) :=
  ⟨by rw [c3Img_length], by rw [c3Img_sb]; exact c3_magic,
    C3_amended_erofs_size c3Img (by rw [c3Img_length]) (by rw [c3Img_sb]; exact c3_magic)
      (by rw [c3Img_sb, c3_cksum, c3_sbz, c3K])⟩
